import Mathlib

/-!
Verification of the character-card codec and worldbook-merge core of the
AI_CharCard_Editor repository (source files beaver-edit-03.py and
char-edit-04.py, whose codec/normalizer/merge functions are identical).

Modelling conventions:

* JSON values (the values produced by Python's json.loads and consumed by
  json.dumps) are modelled by the inductive type JVal.  Python dicts are
  insertion-ordered association lists with unique keys; JSON numbers are
  modelled as integers (none of the verified properties depend on
  fractional values).  Python None and JSON null are both JVal.null.
* Python exceptions are modelled with Except PyErr.  The constructors of
  PyErr name the Python exception classes that the code can raise
  (AttributeError, KeyError, TypeError, binascii.Error,
  UnicodeDecodeError, json.JSONDecodeError).
* Python equality on these values is modelled structurally (jeq).  This
  agrees with Python == except on mappings that hold the same pairs in
  different orders (Python dict equality is order-insensitive) and on
  cross-type numeric comparisons such as True == 1, neither of which is
  exercised by the verified properties.
* In-place mutation is modelled by explicit value passing; for
  process_worldbook, which mutates its argument, the variant
  process_worldbookS additionally returns the post-call value of the
  caller's object.
-/

set_option autoImplicit false

/-- A JSON value as handled by the Python code: null, booleans, numbers
(modelled as integers), strings, arrays, and insertion-ordered objects. -/
inductive JVal where
  | null
  | bool (b : Bool)
  | num (n : Int)
  | str (s : String)
  | arr (elems : List JVal)
  | obj (fields : List (String × JVal))

mutual

/-- Structural equality of JSON values (model of Python == on them). -/
def jeq : JVal → JVal → Bool
  | .null, .null => true
  | .bool a, .bool b => a == b
  | .num a, .num b => a == b
  | .str a, .str b => a == b
  | .arr a, .arr b => jeqList a b
  | .obj a, .obj b => jeqObj a b
  | _, _ => false

/-- Elementwise equality of JSON arrays. -/
def jeqList : List JVal → List JVal → Bool
  | [], [] => true
  | x :: xs, y :: ys => jeq x y && jeqList xs ys
  | _, _ => false

/-- Pairwise equality of JSON object field lists. -/
def jeqObj : List (String × JVal) → List (String × JVal) → Bool
  | [], [] => true
  | (k, v) :: xs, (k2, v2) :: ys => k == k2 && jeq v v2 && jeqObj xs ys
  | _, _ => false

end

mutual

theorem jeq_iff : ∀ a b : JVal, jeq a b = true ↔ a = b
  | .null, b => by cases b <;> simp [jeq]
  | .bool a, b => by cases b <;> simp [jeq]
  | .num a, b => by cases b <;> simp [jeq]
  | .str a, b => by cases b <;> simp [jeq]
  | .arr xs, b => by
      cases b <;> simp [jeq]
      exact jeqList_iff xs _
  | .obj kvs, b => by
      cases b <;> simp [jeq]
      exact jeqObj_iff kvs _

theorem jeqList_iff : ∀ a b : List JVal, jeqList a b = true ↔ a = b
  | [], b => by cases b <;> simp [jeqList]
  | x :: xs, b => by
      cases b with
      | nil => simp [jeqList]
      | cons y ys => simp [jeqList, jeq_iff x y, jeqList_iff xs ys]

theorem jeqObj_iff : ∀ a b : List (String × JVal), jeqObj a b = true ↔ a = b
  | [], b => by cases b <;> simp [jeqObj]
  | (k, v) :: xs, b => by
      cases b with
      | nil => simp [jeqObj]
      | cons p ys =>
          obtain ⟨k2, v2⟩ := p
          simp [jeqObj, jeq_iff v v2, jeqObj_iff xs ys, Prod.ext_iff]

end

instance : DecidableEq JVal := fun a b => decidable_of_iff _ (jeq_iff a b)

/-- Python exception classes that the modelled code can raise. -/
inductive PyErr where
  | attributeError
  | keyError
  | typeError
  | binasciiError
  | unicodeDecodeError
  | jsonDecodeError
  deriving DecidableEq

instance {ε α : Type} [DecidableEq ε] [DecidableEq α] : DecidableEq (Except ε α) := fun x y =>
  match x, y with
  | .ok a, .ok b =>
      if h : a = b then .isTrue (by rw [h]) else .isFalse (by simpa using h)
  | .error a, .error b =>
      if h : a = b then .isTrue (by rw [h]) else .isFalse (by simpa using h)
  | .ok _, .error _ => .isFalse (by simp)
  | .error _, .ok _ => .isFalse (by simp)

/-- Lookup in an insertion-ordered association list (Python dict access). -/
def olookup : List (String × JVal) → String → Option JVal
  | [], _ => none
  | (k, v) :: t, key => if k = key then some v else olookup t key

/-- Python dict item assignment: replace the value in place if the key is
present, append the pair otherwise. -/
def oset : List (String × JVal) → String → JVal → List (String × JVal)
  | [], key, val => [(key, val)]
  | (k, v) :: t, key, val => if k = key then (k, val) :: t else (k, v) :: oset t key val

/-- Python del of a dict key (removes the unique pair with that key). -/
def odel : List (String × JVal) → String → List (String × JVal)
  | [], _ => []
  | (k, v) :: t, key => if k = key then t else (k, v) :: odel t key

/-- Python dict union a | b (PEP 584): keys of a in their order, values
overridden by b on collision, then the new keys of b in b's order. -/
def ounion (a b : List (String × JVal)) : List (String × JVal) :=
  b.foldl (fun acc p => oset acc p.1 p.2) a

/-- Python isinstance(v, list). -/
def JVal.isArr : JVal → Bool
  | .arr _ => true
  | _ => false

/-- Python isinstance(v, dict). -/
def JVal.isObj : JVal → Bool
  | .obj _ => true
  | _ => false

/-- Python substring test (needle in haystack for strings). -/
def strContainsSub (hay needle : String) : Bool :=
  hay.data.tails.any (fun t => needle.data.isPrefixOf t)

/-- Python membership test k in v for a string k: key test on dicts,
element test on lists, substring test on strings, TypeError otherwise. -/
def pyContains (v : JVal) (k : String) : Except PyErr Bool :=
  match v with
  | .obj kvs => .ok (olookup kvs k).isSome
  | .arr xs => .ok (xs.contains (JVal.str k))
  | .str s => .ok (strContainsSub s k)
  | _ => .error .typeError

/-- Python subscript v[k] with a string key: dict item lookup (KeyError when
absent); lists and strings reject string indices with TypeError, as do
non-subscriptable values. -/
def pyIndex (v : JVal) (k : String) : Except PyErr JVal :=
  match v with
  | .obj kvs =>
      match olookup kvs k with
      | some x => .ok x
      | none => .error .keyError
  | _ => .error .typeError

/-- Python v.get(k, dflt): only dicts have a get method (AttributeError
otherwise); a missing key yields the default. -/
def dictGet (v : JVal) (k : String) (dflt : JVal) : Except PyErr JVal :=
  match v with
  | .obj kvs => .ok ((olookup kvs k).getD dflt)
  | _ => .error .attributeError

/-- Python a += b for the values reaching the merge code: list extend by an
iterable (a dict contributes its keys, a string its characters), string and
integer addition; other combinations raise TypeError.  Cross-type numeric
additions involving booleans are not modelled (no verified property
exercises them). -/
def pyIAdd (a b : JVal) : Except PyErr JVal :=
  match a, b with
  | .arr xs, .arr ys => .ok (.arr (xs ++ ys))
  | .arr xs, .obj m => .ok (.arr (xs ++ m.map (fun p => JVal.str p.1)))
  | .arr xs, .str s => .ok (.arr (xs ++ s.data.map (fun c => JVal.str (String.mk [c]))))
  | .str s, .str t => .ok (.str (s ++ t))
  | .num x, .num y => .ok (.num (x + y))
  | _, _ => .error .typeError

/-- Python a | b for the values reaching the merge code: dict union (right
operand wins on collision), boolean or; integer bitwise or and other
combinations raise TypeError in this model (no verified property exercises
them). -/
def pyOr (a b : JVal) : Except PyErr JVal :=
  match a, b with
  | .obj xs, .obj ys => .ok (.obj (ounion xs ys))
  | .bool x, .bool y => .ok (.bool (x || y))
  | _, _ => .error .typeError

/-- Fields of the base template dict of the source (the default V2 card). -/
def baseFields : List (String × JVal) :=
  [("spec", .str "chara_card_v2"),
   ("spec_version", .str "2.0"),
   ("data", .obj
     [("name", .str ""),
      ("description", .str ""),
      ("personality", .str ""),
      ("scenario", .str ""),
      ("first_mes", .str ""),
      ("mes_example", .str ""),
      ("creator_notes", .str ""),
      ("system_prompt", .str ""),
      ("post_history_instructions", .str ""),
      ("alternate_greetings", .arr []),
      ("tags", .arr []),
      ("creator", .str ""),
      ("character_version", .str ""),
      ("extensions", .obj [])])]

/-- The base template dict itself. -/
def base : JVal := .obj baseFields

/-- deep_empty_card of the source: json.loads(json.dumps(base)) is a deep
copy of base, which at the value level is base itself. -/
def deep_empty_card : JVal := base

/-- Body of the secondary_keys repair loop of read_character: for one entry,
if entry.get("secondary_keys") is not a list it is replaced with an empty
list; non-dict entries make the get call raise AttributeError. -/
def normEntry (e : JVal) : Except PyErr JVal :=
  match e with
  | .obj kvs =>
      if ((olookup kvs "secondary_keys").getD .null).isArr then .ok (.obj kvs)
      else .ok (.obj (oset kvs "secondary_keys" (.arr [])))
  | _ => .error .attributeError

/-- The for-loop of read_character over character_book entries.  Iterating a
list visits its elements; iterating a non-empty dict visits its keys
(strings, whose get call raises AttributeError) and a non-empty string its
characters (likewise); empty iterables leave the value untouched;
non-iterables raise TypeError. -/
def normEntries (ev : JVal) : Except PyErr JVal :=
  match ev with
  | .arr es => (es.mapM normEntry).map JVal.arr
  | .obj [] => .ok (.obj [])
  | .obj (_ :: _) => .error .attributeError
  | .str s => if s.data.isEmpty then .ok (.str s) else .error .attributeError
  | _ => .error .typeError

/-- The tags repair step of read_character: replace a non-list tags value
with an empty list. -/
def normTags (kvs : List (String × JVal)) : List (String × JVal) :=
  if ((olookup kvs "tags").getD (.arr [])).isArr then kvs
  else oset kvs "tags" (.arr [])

/-- The alternate_greetings repair step of read_character: replace a
non-list value with an empty list. -/
def normAG (kvs : List (String × JVal)) : List (String × JVal) :=
  if ((olookup kvs "alternate_greetings").getD (.arr [])).isArr then kvs
  else oset kvs "alternate_greetings" (.arr [])

/-- The character_book repair step of read_character: when the data mapping
carries a character_book with an entries member, run the secondary_keys
repair loop over the entries (Python membership and subscript semantics
throughout). -/
def normBook (kvs2 : List (String × JVal)) : Except PyErr (List (String × JVal)) :=
  match olookup kvs2 "character_book" with
  | none => .ok kvs2
  | some cb => do
      let hasEntries ← pyContains cb "entries"
      if hasEntries then do
        let ev ← pyIndex cb "entries"
        let ev2 ← normEntries ev
        match cb with
        | .obj ckvs => .ok (oset kvs2 "character_book" (.obj (oset ckvs "entries" ev2)))
        | _ => .error .typeError
      else .ok kvs2

/-- Normalization performed by read_character on the decoded JSON value
(source lines between json.loads and the return): wrap non-V2 payloads in a
fresh base card, repair tags and alternate_greetings when they are not
lists, and repair secondary_keys of every character_book entry. -/
def normalizeCard (d0 : JVal) : Except PyErr JVal :=
  match d0 with
  | .obj dkvs =>
    let outer : List (String × JVal) :=
      if (olookup dkvs "spec").getD .null = .str "chara_card_v2" then dkvs
      else oset baseFields "data" (.obj dkvs)
    match olookup outer "data" with
    | none => .error .keyError
    | some (.obj kvs0) =>
        match normBook (normAG (normTags kvs0)) with
        | .ok kvs2 => .ok (.obj (oset outer "data" (.obj kvs2)))
        | .error e => .error e
    | some _ => .error .attributeError
  | _ => .error .attributeError

/-- Body of the legacy-entry strip loop of process_worldbook: drop the
legacy entry field of a worldbook entry when its value equals the content
field (both read with Python get, so a missing content compares equal to a
null entry).  Membership and attribute access on non-dict entries follow
Python semantics. -/
def stripEntry (e : JVal) : Except PyErr JVal :=
  match e with
  | .obj kvs =>
      match olookup kvs "entry" with
      | some ev =>
          if (olookup kvs "content").getD .null = ev then .ok (.obj (odel kvs "entry"))
          else .ok (.obj kvs)
      | none => .ok (.obj kvs)
  | .arr xs => if xs.contains (JVal.str "entry") then .error .attributeError else .ok (.arr xs)
  | .str s => if strContainsSub s "entry" then .error .attributeError else .ok (.str s)
  | _ => .error .typeError

/-- The strip loop over a list of entries, returning the loop outcome
together with the final value of the in-place mutated list (on an
exception the already-visited prefix keeps its stripped values). -/
def stripLoop : List JVal → Except PyErr (List JVal) × List JVal
  | [] => (.ok [], [])
  | e :: es =>
      match stripEntry e with
      | .error err => (.error err, e :: es)
      | .ok e' =>
          let r := stripLoop es
          ((r.1).map (fun es' => e' :: es'), e' :: r.2)

/-- The entries loop of process_worldbook plus result assembly, given the
current entries value (already converted to a list when it was a keyed
mapping) and the current fields of the mutated dict.  Iterating a list
visits its elements, a string its characters and a mapping its keys (the
latter two as one-character and key strings, which the strip test leaves
untouched or rejects per Python semantics); non-iterables raise
TypeError. -/
def worldbookEntriesLoop (ev : JVal) (kvs1 : List (String × JVal)) :
    Except PyErr (Option JVal) × JVal :=
  match ev with
  | .arr es =>
      ((stripLoop es).1.map (fun es2 => some (.obj (oset kvs1 "entries" (.arr es2)))),
       .obj (oset kvs1 "entries" (.arr (stripLoop es).2)))
  | .str s =>
      ((stripLoop (s.data.map (fun c => JVal.str (String.mk [c])))).1.map
         (fun _ => some (.obj kvs1)),
       .obj kvs1)
  | .obj m =>
      ((stripLoop (m.map (fun p => JVal.str p.1))).1.map (fun _ => some (.obj kvs1)),
       .obj kvs1)
  | _ => (.error .typeError, .obj kvs1)

/-- process_worldbook of the source together with the post-call value of
its argument (the function mutates the dict it is given: the keyed-mapping
to list conversion of entries and the legacy-entry stripping happen in
place).  The first component is the return value, the second the value the
caller's object holds after the call. -/
def process_worldbookS (d : JVal) : Except PyErr (Option JVal) × JVal :=
  match d with
  | .obj kvs =>
    match olookup kvs "entries" with
    | none =>
        if olookup kvs "spec" = some (.str "chara_card_v2") then
          match olookup kvs "data" with
          | some dv =>
              (match pyContains dv "character_book" with
               | .error e => (.error e, d)
               | .ok true => ((pyIndex dv "character_book").map some, d)
               | .ok false => (.ok none, d))
          | none => (.ok none, d)
        else (.ok none, d)
    | some ev =>
        match ev with
        | .obj m =>
            worldbookEntriesLoop (.arr (m.map Prod.snd)) (oset kvs "entries" (.arr (m.map Prod.snd)))
        | _ => worldbookEntriesLoop ev kvs
  | _ => (.ok none, d)

/-- Return value of process_worldbook (None is modelled as Option.none). -/
def process_worldbook (d : JVal) : Except PyErr (Option JVal) :=
  (process_worldbookS d).1

/-- Shared shape of the two adoption steps of import_worldbook: take the
worldbook's value for key only when it is non-empty and the book's current
value (a missing key reading as empty) is empty. -/
def adoptIfEmpty (ckvs wkvs : List (String × JVal)) (key : String) :
    List (String × JVal) :=
  if (olookup wkvs key).getD (.str "") ≠ .str "" ∧
     (olookup ckvs key).getD (.str "") = .str ""
  then oset ckvs key ((olookup wkvs key).getD (.str "")) else ckvs

/-- import_worldbook of the source: adopt the worldbook's description and
name only into empty slots, extend the book's entries with the worldbook's
(KeyError when the worldbook has none), and shallow-merge extensions with
the worldbook winning on collisions.  The returned value is also the
post-call value of the mutated characterBook argument. -/
def import_worldbook (characterBook worldBook : JVal) : Except PyErr JVal :=
  match worldBook with
  | .obj wkvs =>
    match characterBook with
    | .obj ckvs =>
      let ckvs2 := adoptIfEmpty (adoptIfEmpty ckvs wkvs "description") wkvs "name"
      let entries0 := (olookup ckvs2 "entries").getD (.arr [])
      let ckvs3 := oset ckvs2 "entries" entries0
      match olookup wkvs "entries" with
      | none => .error .keyError
      | some wentries =>
          match pyIAdd entries0 wentries with
          | .error e => .error e
          | .ok newEntries =>
              let ckvs4 := oset ckvs3 "entries" newEntries
              match pyOr ((olookup ckvs4 "extensions").getD (.obj []))
                         ((olookup wkvs "extensions").getD (.obj [])) with
              | .error e => .error e
              | .ok merged => .ok (.obj (oset ckvs4 "extensions" merged))
    | _ => .error .attributeError
  | _ => .error .attributeError

/-- The standard base64 alphabet, indexed by sextet value. -/
def b64char (n : Nat) : Char :=
  "ABCDEFGHIJKLMNOPQRSTUVWXYZabcdefghijklmnopqrstuvwxyz0123456789+/".data.getD n 'A'

/-- Value of a base64 alphabet character, none for other characters. -/
def b64decChar (c : Char) : Option Nat :=
  "ABCDEFGHIJKLMNOPQRSTUVWXYZabcdefghijklmnopqrstuvwxyz0123456789+/".data.findIdx? (fun d => d = c)

/-- Membership in the base64 alphabet. -/
def isB64Char (c : Char) : Bool := (b64decChar c).isSome

/-- base64.b64encode of the source, at byte level: groups of three bytes
become four alphabet characters, with '=' padding for a short final
group. -/
def b64encode : List Nat → List Char
  | [] => []
  | [x] => [b64char (x / 4), b64char (x % 4 * 16), '=', '=']
  | [x, y] => [b64char (x / 4), b64char (x % 4 * 16 + y / 16), b64char (y % 16 * 4), '=']
  | x :: y :: z :: rest =>
      b64char (x / 4) :: b64char (x % 4 * 16 + y / 16) ::
      b64char (y % 16 * 4 + z / 64) :: b64char (z % 64) :: b64encode rest

/-- Quad-wise base64 decoding of an already filtered character sequence:
each complete quad yields three bytes, a quad padded with one or two '='
characters must be final and yields two bytes or one, anything else
(including a trailing partial quad) is a binascii error. -/
def b64decodeQuads : List Char → Option (List Nat)
  | [] => some []
  | a :: b :: c :: d :: rest =>
      match b64decChar a, b64decChar b with
      | some va, some vb =>
          if c = '=' then
            if d = '=' ∧ rest = [] then some [va * 4 + vb / 16] else none
          else
            match b64decChar c with
            | some vc =>
                if d = '=' then
                  if rest = [] then some [va * 4 + vb / 16, vb % 16 * 16 + vc / 4] else none
                else
                  match b64decChar d with
                  | some vd =>
                      (b64decodeQuads rest).map
                        (fun bs => (va * 4 + vb / 16) :: (vb % 16 * 16 + vc / 4) :: (vc % 4 * 64 + vd) :: bs)
                  | none => none
            | none => none
      | _, _ => none
  | _ => none

/-- base64.b64decode of the source (validate=False): characters outside the
alphabet and padding are discarded first, then the remainder is decoded
quad-wise; a left-over partial quad or misplaced padding raises
binascii.Error (modelled as none). -/
def b64decode (s : List Char) : Option (List Nat) :=
  b64decodeQuads (s.filter (fun c => isB64Char c || c = '='))

/-- UTF-8 encoding of one character (str.encode of the source, per code
point). -/
def utf8EncodeChar (c : Char) : List Nat :=
  let n := c.toNat
  if n < 128 then [n]
  else if n < 2048 then [192 + n / 64, 128 + n % 64]
  else if n < 65536 then [224 + n / 4096, 128 + n / 64 % 64, 128 + n % 64]
  else [240 + n / 262144, 128 + n / 4096 % 64, 128 + n / 64 % 64, 128 + n % 64]

/-- UTF-8 encoding of a string (str.encode('utf-8') of the source). -/
def utf8Encode (s : List Char) : List Nat := (s.map utf8EncodeChar).flatten

/-- Decoding of one UTF-8-encoded code point from the front of a byte
sequence (strict, per bytes.decode('utf-8') of the source): rejects stray
continuation bytes, overlong encodings, surrogates and out-of-range lead
bytes (modelled as none, Python's UnicodeDecodeError). -/
def utf8DecodeOne : List Nat → Option (Char × List Nat)
  | [] => none
  | b :: rest =>
      if b < 128 then some (Char.ofNat b, rest)
      else if b < 194 then none
      else if b < 224 then
        match rest with
        | b2 :: rest2 =>
            if 128 ≤ b2 ∧ b2 < 192 then
              some (Char.ofNat ((b - 192) * 64 + (b2 - 128)), rest2)
            else none
        | [] => none
      else if b < 240 then
        match rest with
        | b2 :: b3 :: rest3 =>
            if (128 ≤ b2 ∧ b2 < 192) ∧ (128 ≤ b3 ∧ b3 < 192) then
              let n := (b - 224) * 4096 + (b2 - 128) * 64 + (b3 - 128)
              if 2048 ≤ n ∧ ¬ (55296 ≤ n ∧ n < 57344) then some (Char.ofNat n, rest3)
              else none
            else none
        | _ => none
      else if b < 245 then
        match rest with
        | b2 :: b3 :: b4 :: rest4 =>
            if (128 ≤ b2 ∧ b2 < 192) ∧ ((128 ≤ b3 ∧ b3 < 192) ∧ (128 ≤ b4 ∧ b4 < 192)) then
              let n := (b - 240) * 262144 + (b2 - 128) * 4096 + (b3 - 128) * 64 + (b4 - 128)
              if 65536 ≤ n ∧ n < 1114112 then some (Char.ofNat n, rest4)
              else none
            else none
        | _ => none
      else none

/-- Code-point decoding loop with a structural fuel bound (each step
consumes at least one byte, so fuel equal to the byte count suffices). -/
def utf8DecodeAux : Nat → List Nat → Option (List Char)
  | _, [] => some []
  | 0, _ :: _ => none
  | fuel + 1, b :: rest =>
      match utf8DecodeOne (b :: rest) with
      | some (c, rest2) => (utf8DecodeAux fuel rest2).map (fun cs => c :: cs)
      | none => none

/-- Strict UTF-8 decoding of a byte sequence (bytes.decode('utf-8') of the
source), modelled as none on UnicodeDecodeError. -/
def utf8Decode (bs : List Nat) : Option (List Char) := utf8DecodeAux bs.length bs

/-- Lowercase hex digit, as used by the json module's \uXXXX escapes. -/
def hexDigit (n : Nat) : Char := "0123456789abcdef".data.getD n '0'

/-- Four lowercase hex digits of a code unit below 65536. -/
def toHex4 (n : Nat) : List Char :=
  [hexDigit (n / 4096 % 16), hexDigit (n / 256 % 16), hexDigit (n / 16 % 16), hexDigit (n % 16)]

/-- Escaping of one character by json.dumps with its default
ensure_ascii=True: two-character escapes for quote, backslash and the five
named control characters, \uXXXX for every other character outside
printable ASCII (as a surrogate pair beyond the basic plane), and the
character itself otherwise. -/
def escChar (c : Char) : List Char :=
  let n := c.toNat
  if c = '"' then ['\\', '"']
  else if c = '\\' then ['\\', '\\']
  else if c = '\n' then ['\\', 'n']
  else if c = '\t' then ['\\', 't']
  else if c = '\r' then ['\\', 'r']
  else if n = 8 then ['\\', 'b']
  else if n = 12 then ['\\', 'f']
  else if 32 ≤ n ∧ n < 127 then [c]
  else if n < 65536 then '\\' :: 'u' :: toHex4 n
  else ('\\' :: 'u' :: toHex4 (55296 + (n - 65536) / 1024)) ++
       ('\\' :: 'u' :: toHex4 (56320 + (n - 65536) % 1024))

/-- Decimal digit character selected by the "0123456789" table of the
serializer model. -/
def digitChar (m : Nat) : Char := "0123456789".data.getD m '0'

/-- Decimal digits of a natural number accumulated least significant
first onto acc, with a structural fuel bound (any fuel above the digit
count gives the digits; the fuel keeps the recursion structural so that
terms reduce definitionally). -/
def natDigitsAux : Nat → Nat → List Char → List Char
  | 0, _, acc => acc
  | fuel + 1, n, acc =>
      if n = 0 then acc
      else natDigitsAux fuel (n / 10) (digitChar (n % 10) :: acc)

/-- Decimal notation of a natural number. -/
def natToChars (n : Nat) : List Char :=
  if n = 0 then ['0'] else natDigitsAux (n + 1) n []

/-- Decimal notation of an integer (json.dumps of an int). -/
def intToChars (i : Int) : List Char :=
  if i < 0 then '-' :: natToChars i.natAbs else natToChars i.natAbs

mutual

/-- json.dumps of the source with its default arguments (separators
", " and ": ", ensure_ascii=True): renders a JSON value as the character
sequence of its ASCII JSON text. -/
def json_dumps : JVal → List Char
  | .null => "null".data
  | .bool true => "true".data
  | .bool false => "false".data
  | .num i => intToChars i
  | .str s => '"' :: (s.data.map escChar).flatten ++ ['"']
  | .arr xs => '[' :: dumpsList xs ++ [']']
  | .obj kvs => '\x7b' :: dumpsObj kvs ++ ['\x7d']

/-- Comma-separated rendering of array elements. -/
def dumpsList : List JVal → List Char
  | [] => []
  | [x] => json_dumps x
  | x :: y :: rest => json_dumps x ++ ',' :: ' ' :: dumpsList (y :: rest)

/-- Comma-separated rendering of object members. -/
def dumpsObj : List (String × JVal) → List Char
  | [] => []
  | [(k, v)] => '"' :: (k.data.map escChar).flatten ++ '"' :: ':' :: ' ' :: json_dumps v
  | (k, v) :: p :: rest =>
      ('"' :: (k.data.map escChar).flatten ++ '"' :: ':' :: ' ' :: json_dumps v) ++
      ',' :: ' ' :: dumpsObj (p :: rest)

end

/-- JSON whitespace. -/
def isWs (c : Char) : Bool := c = ' ' || c = '\t' || c = '\n' || c = '\r'

/-- Drop leading JSON whitespace. -/
def skipWs : List Char → List Char
  | [] => []
  | c :: cs => if isWs c then skipWs cs else c :: cs

/-- Decimal digit test. -/
def isDigit (c : Char) : Bool := '0' ≤ c ∧ c ≤ '9'

/-- Value of a hex digit in either case. -/
def hexVal (c : Char) : Option Nat :=
  if '0' ≤ c ∧ c ≤ '9' then some (c.toNat - 48)
  else if 'a' ≤ c ∧ c ≤ 'f' then some (c.toNat - 87)
  else if 'A' ≤ c ∧ c ≤ 'F' then some (c.toNat - 55)
  else none

/-- Tail of a \uXXXX escape that opened with a high surrogate: the
following \uXXXX low surrogate, combined into one supplementary-plane code
point. -/
def parseStrU2 (u : Nat) : List Char → Option (Option Char × List Char)
  | e2 :: u2 :: g1 :: g2 :: g3 :: g4 :: cs12 =>
      if e2 = '\\' ∧ u2 = 'u' then
        match hexVal g1, hexVal g2, hexVal g3, hexVal g4 with
        | some f1, some f2, some f3, some f4 =>
            let w := f1 * 4096 + f2 * 256 + f3 * 16 + f4
            if 56320 ≤ w ∧ w < 57344 then
              some (some (Char.ofNat (65536 + (u - 55296) * 1024 + (w - 56320))), cs12)
            else none
        | _, _, _, _ => none
      else none
  | _ => none

/-- Body of a \uXXXX escape: four hex digits, possibly continued by a low
surrogate.  Lone surrogates, which Python would keep as unpaired code
units, are rejected in this model since they denote no code point. -/
def parseStrU : List Char → Option (Option Char × List Char)
  | h1 :: h2 :: h3 :: h4 :: cs6 =>
      match hexVal h1, hexVal h2, hexVal h3, hexVal h4 with
      | some d1, some d2, some d3, some d4 =>
          let u := d1 * 4096 + d2 * 256 + d3 * 16 + d4
          if 55296 ≤ u ∧ u < 56320 then parseStrU2 u cs6
          else if 56320 ≤ u ∧ u < 57344 then none
          else some (some (Char.ofNat u), cs6)
      | _, _, _, _ => none
  | _ => none

/-- Escape sequence after a backslash: the named escapes or \uXXXX. -/
def parseStrEsc : List Char → Option (Option Char × List Char)
  | [] => none
  | e :: cs2 =>
      if e = '"' then some (some '"', cs2)
      else if e = '\\' then some (some '\\', cs2)
      else if e = '/' then some (some '/', cs2)
      else if e = 'b' then some (some (Char.ofNat 8), cs2)
      else if e = 'f' then some (some (Char.ofNat 12), cs2)
      else if e = 'n' then some (some '\n', cs2)
      else if e = 'r' then some (some '\r', cs2)
      else if e = 't' then some (some '\t', cs2)
      else if e = 'u' then parseStrU cs2
      else none

/-- One step of parsing the body of a JSON string, per the json module in
strict mode: the closing quote (reported as none), or one decoded character
(a literal, with raw control characters rejected, or an escape). -/
def parseStrOne : List Char → Option (Option Char × List Char)
  | [] => none
  | c :: cs =>
      if c = '"' then some (none, cs)
      else if c = '\\' then parseStrEsc cs
      else if c.toNat < 32 then none
      else some (some c, cs)

/-- String-body parsing loop with a structural fuel bound (each step
consumes at least one character, so fuel above the character count
suffices). -/
def parseStringBodyAux : Nat → List Char → Option (List Char × List Char)
  | 0, _ => none
  | fuel + 1, cs =>
      match parseStrOne cs with
      | some (none, rest) => some ([], rest)
      | some (some c, rest) => (parseStringBodyAux fuel rest).map (fun p => (c :: p.1, p.2))
      | none => none

/-- Parser for the body of a JSON string, after the opening quote. -/
def parseStringBody (cs : List Char) : Option (List Char × List Char) :=
  parseStringBodyAux (cs.length + 1) cs

/-- Maximal run of decimal digits, accumulating their value. -/
def parseDigitsAux (acc : Nat) : List Char → Nat × List Char
  | [] => (acc, [])
  | c :: cs =>
      if isDigit c then parseDigitsAux (acc * 10 + (c.toNat - 48)) cs else (acc, c :: cs)

/-- Parser for an unsigned JSON integer literal given its first character,
per the JSON number grammar (no leading zeros).  Fractional and exponent
forms, which parse to Python floats, are outside this integer-valued model
and rejected. -/
def parseNatToken (c : Char) (t : List Char) : Option (Nat × List Char) :=
  if c = '0' then
    match t with
    | [] => some (0, [])
    | d :: _ => if isDigit d ∨ d = '.' ∨ d = 'e' ∨ d = 'E' then none else some (0, t)
  else if isDigit c then
    let r := parseDigitsAux (c.toNat - 48) t
    match r.2 with
    | [] => some (r.1, [])
    | d :: _ => if d = '.' ∨ d = 'e' ∨ d = 'E' then none else some (r.1, r.2)
  else none

/-- Parser for a JSON integer literal (optional minus sign). -/
def parseIntToken (cs : List Char) : Option (Int × List Char) :=
  match cs with
  | [] => none
  | c :: t =>
      if c = '-' then
        match t with
        | [] => none
        | c2 :: t2 => (parseNatToken c2 t2).map (fun p => (-(p.1 : Int), p.2))
      else (parseNatToken c t).map (fun p => ((p.1 : Int), p.2))

mutual

/-- Recursive-descent JSON value parser (json.loads of the source), with a
fuel bound on nesting depth. -/
def parseVal : Nat → List Char → Option (JVal × List Char)
  | 0, _ => none
  | fuel + 1, cs0 =>
      match skipWs cs0 with
      | 'n' :: 'u' :: 'l' :: 'l' :: rest => some (.null, rest)
      | 't' :: 'r' :: 'u' :: 'e' :: rest => some (.bool true, rest)
      | 'f' :: 'a' :: 'l' :: 's' :: 'e' :: rest => some (.bool false, rest)
      | '"' :: rest => (parseStringBody rest).map (fun p => (.str (String.mk p.1), p.2))
      | '[' :: rest =>
          (match skipWs rest with
           | ']' :: rest2 => some (.arr [], rest2)
           | rest1 => (parseElems fuel rest1).map (fun p => (.arr p.1, p.2)))
      | '\x7b' :: rest =>
          (match skipWs rest with
           | '\x7d' :: rest2 => some (.obj [], rest2)
           | rest1 =>
              (parseMembers fuel rest1).map
                (fun p => (.obj (p.1.foldl (fun acc q => oset acc q.1 q.2) []), p.2)))
      | cs => (parseIntToken cs).map (fun p => (.num p.1, p.2))

/-- Parser for the non-empty element list of a JSON array. -/
def parseElems : Nat → List Char → Option (List JVal × List Char)
  | 0, _ => none
  | fuel + 1, cs =>
      match parseVal fuel cs with
      | some (v, rest) =>
          (match skipWs rest with
           | ',' :: rest2 => (parseElems fuel rest2).map (fun p => (v :: p.1, p.2))
           | ']' :: rest2 => some ([v], rest2)
           | _ => none)
      | none => none

/-- Parser for the non-empty member list of a JSON object. -/
def parseMembers : Nat → List Char → Option (List (String × JVal) × List Char)
  | 0, _ => none
  | fuel + 1, cs =>
      match skipWs cs with
      | '"' :: rest =>
          (match parseStringBody rest with
           | some (kchars, rest1) =>
              (match skipWs rest1 with
               | ':' :: rest2 =>
                  (match parseVal fuel rest2 with
                   | some (v, rest3) =>
                      (match skipWs rest3 with
                       | ',' :: rest4 =>
                          (parseMembers fuel rest4).map
                            (fun p => ((String.mk kchars, v) :: p.1, p.2))
                       | '\x7d' :: rest4 => some ([(String.mk kchars, v)], rest4)
                       | _ => none)
                   | none => none)
               | _ => none)
           | none => none)
      | _ => none

end

/-- json.loads of the source: parse one JSON document, requiring only
whitespace after it (duplicate object keys keep the last value, as Python
dict construction does; the member fold in parseVal implements this). -/
def json_loads (s : List Char) : Option JVal :=
  match parseVal (s.length + 1) s with
  | some (v, rest) => if skipWs rest = [] then some v else none
  | none => none

/-- A PNG image as the codec observes it: the textual metadata key-value
entries PIL exposes as image.text, plus the opaque pixel payload, which the
codec passes through unchanged. -/
structure PngImage where
  text : List (String × String)
  pixels : List Nat

/-- Lookup of a textual metadata entry (image.text.get of the source). -/
def pngTextGet : List (String × String) → String → Option String
  | [], _ => none
  | (k, v) :: t, key => if k = key then some v else pngTextGet t key

/-- write_character of the source: serialize the card with json.dumps,
base64-encode its UTF-8 bytes, and save the image with a fresh PngInfo
holding that string under the single key chara (the pixel payload passes
through; pre-existing text entries are not copied into the new PngInfo). -/
def write_character (img : PngImage) (data : JVal) : PngImage :=
  { text := [("chara", String.mk (b64encode (utf8Encode (json_dumps data))))],
    pixels := img.pixels }

/-- read_character of the source: a missing chara entry yields a fresh
default card; a present entry is base64-decoded, UTF-8-decoded and
JSON-parsed (each failure propagating as its Python exception), then
normalized. -/
def read_character (img : PngImage) : Except PyErr JVal :=
  match pngTextGet img.text "chara" with
  | none => .ok deep_empty_card
  | some chunk =>
      match b64decode chunk.data with
      | none => .error .binasciiError
      | some jsonBytes =>
          match utf8Decode jsonBytes with
          | none => .error .unicodeDecodeError
          | some jsonChars =>
              match json_loads jsonChars with
              | none => .error .jsonDecodeError
              | some v => normalizeCard v

/-- Right-hand side of the round-trip law: normalization applied to the
reparse of the serialized card (the spec's normalize(serialize(c))). -/
def normalizeOfSerialized (c : JVal) : Except PyErr JVal :=
  match json_loads (json_dumps c) with
  | some v => normalizeCard v
  | none => .error .jsonDecodeError

/-- Well-formedness of one character_book entry for the round-trip claim:
a mapping whose secondary_keys is present and a sequence. -/
def entryWF : JVal → Bool
  | .obj kvs =>
      match olookup kvs "secondary_keys" with
      | some (.arr _) => true
      | _ => false
  | _ => false

/-- Well-formedness of a character_book for the round-trip claim: a mapping
whose entries, when present, is a sequence of well-formed entries. -/
def bookWF : JVal → Bool
  | .obj ckvs =>
      match olookup ckvs "entries" with
      | none => true
      | some (.arr es) => es.all entryWF
      | some _ => false
  | _ => false

/-- Schema invariants of the round-trip claim: top-level spec is the
chara_card_v2 constant, data is a mapping, tags and alternate_greetings are
sequences or absent, and any character_book is well-formed. -/
def cardWF : JVal → Bool
  | .obj dkvs =>
      (olookup dkvs "spec" = some (.str "chara_card_v2")) &&
      (match olookup dkvs "data" with
       | some (.obj kvs) =>
          (match olookup kvs "tags" with
           | none => true
           | some (.arr _) => true
           | some _ => false) &&
          (match olookup kvs "alternate_greetings" with
           | none => true
           | some (.arr _) => true
           | some _ => false) &&
          (match olookup kvs "character_book" with
           | none => true
           | some cb => bookWF cb)
       | _ => false)
  | _ => false


/-- Specification of the most-significant-first decimal digits of a number
(empty for zero); used only in proofs about natDigitsAux. -/
def natDigitsSpec : Nat → List Char
  | 0 => []
  | n + 1 => natDigitsSpec ((n + 1) / 10) ++ [digitChar ((n + 1) % 10)]
decreasing_by exact Nat.div_lt_self (Nat.succ_pos n) (by omega)

/-- The remainder does not begin with a character that would extend a
preceding number token (a digit, the decimal point, or an exponent letter),
matching the json.loads number grammar boundary. -/
def numBoundary : List Char → Bool
  | [] => true
  | d :: _ => !(isDigit d || d = '.' || d = 'e' || d = 'E')

/-- Key uniqueness of an object member list, the invariant every value held
by a Python dict satisfies. -/
def noDupKeys : List (String × JVal) → Bool
  | [] => true
  | (k, _) :: t => !decide (k ∈ t.map Prod.fst) && noDupKeys t

mutual

/-- Python representability of a JSON value: every object inside it has
unique member keys, as any value produced by json.loads does (a Python dict
cannot hold a key twice). -/
def jWF : JVal → Bool
  | .null => true
  | .bool _ => true
  | .num _ => true
  | .str _ => true
  | .arr xs => jWFList xs
  | .obj kvs => noDupKeys kvs && jWFObj kvs

/-- jWF of every element of an array. -/
def jWFList : List JVal → Bool
  | [] => true
  | x :: t => jWF x && jWFList t

/-- jWF of every value of an object member list. -/
def jWFObj : List (String × JVal) → Bool
  | [] => true
  | (_, v) :: t => jWF v && jWFObj t

end

mutual

/-- Fuel lower bound sufficient for parseVal to parse the rendering of a
value: one unit per parser call made while consuming json_dumps output. -/
def parseFuel : JVal → Nat
  | .null => 1
  | .bool _ => 1
  | .num _ => 1
  | .str _ => 1
  | .arr xs => 1 + parseFuelList xs
  | .obj kvs => 1 + parseFuelObj kvs

/-- Fuel bound for parseElems over the rendering of array elements. -/
def parseFuelList : List JVal → Nat
  | [] => 0
  | x :: t => 1 + parseFuel x + parseFuelList t

/-- Fuel bound for parseMembers over the rendering of object members. -/
def parseFuelObj : List (String × JVal) → Nat
  | [] => 0
  | (_, v) :: t => 1 + parseFuel v + parseFuelObj t

end

theorem olookup_oset (l : List (String × JVal)) (k k' : String) (v : JVal) :
    olookup (oset l k v) k' = if k = k' then some v else olookup l k' := by
  induction l with
  | nil => simp [oset, olookup]
  | cons p t ih =>
      obtain ⟨k0, v0⟩ := p
      by_cases h0 : k0 = k
      · subst h0
        by_cases h1 : k0 = k'
        · subst h1; simp [oset, olookup]
        · simp [oset, olookup, h1]
      · by_cases h1 : k0 = k'
        · subst h1
          simp [oset, olookup, h0, Ne.symm h0]
        · simp [oset, olookup, h0, h1, ih]

theorem oset_oset_same (l : List (String × JVal)) (k : String) (v w : JVal) :
    oset (oset l k v) k w = oset l k w := by
  induction l with
  | nil => simp [oset]
  | cons p t ih =>
      obtain ⟨k0, v0⟩ := p
      by_cases h0 : k0 = k <;> simp [oset, h0, ih]

theorem oset_self (l : List (String × JVal)) (k : String) (v : JVal)
    (h : olookup l k = some v) : oset l k v = l := by
  induction l with
  | nil => simp [olookup] at h
  | cons p t ih =>
      obtain ⟨k0, v0⟩ := p
      by_cases h0 : k0 = k
      · subst h0
        simp [olookup] at h
        simp [oset, h]
      · simp [olookup, h0] at h
        simp [oset, h0, ih h]

theorem mem_keys_of_olookup (l : List (String × JVal)) (k : String) (w : JVal)
    (h : olookup l k = some w) : k ∈ l.map Prod.fst := by
  induction l with
  | nil => simp [olookup] at h
  | cons p t ih =>
      obtain ⟨k0, v0⟩ := p
      by_cases h0 : k0 = k
      · simp [h0]
      · simp only [olookup, h0, if_false] at h
        simp [ih h]

theorem olookup_ounion (a b : List (String × JVal)) (k : String)
    (hb : (b.map Prod.fst).Nodup) :
    olookup (ounion a b) k = (olookup b k).elim (olookup a k) some := by
  induction b generalizing a with
  | nil => simp [ounion, olookup]
  | cons p t ih =>
      obtain ⟨k0, v0⟩ := p
      simp only [List.map_cons, List.nodup_cons] at hb
      have step : ounion a ((k0, v0) :: t) = ounion (oset a k0 v0) t := rfl
      rw [step, ih _ hb.2]
      cases ht : olookup t k with
      | some w =>
          have hk : k0 ≠ k := fun he => hb.1 (he ▸ mem_keys_of_olookup t k w ht)
          simp [olookup, ht, hk]
      | none =>
          by_cases h0 : k0 = k
          · subst h0
            simp [olookup, ht, olookup_oset]
          · simp [olookup, ht, h0, olookup_oset]

theorem stripLoop_snd_of_ok (es es2 : List JVal) (h : (stripLoop es).1 = .ok es2) :
    (stripLoop es).2 = es2 := by
  induction es generalizing es2 with
  | nil =>
      simp only [stripLoop] at h ⊢
      cases h
      rfl
  | cons e t ih =>
      cases hse : stripEntry e with
      | error err => simp [stripLoop, hse] at h
      | ok e2 =>
          simp only [stripLoop, hse] at h ⊢
          cases ht : (stripLoop t).1 with
          | error err => rw [ht] at h; simp [Except.map] at h
          | ok t2 =>
              rw [ht] at h
              simp only [Except.map] at h
              cases h
              simp [ih t2 ht]

/-- C2 (counterexample): a decoded JSON value that is not an object does
not yield a default card; the normalization of read_character raises
AttributeError on it (the get call on a non-mapping). -/
theorem claim_c2_counterexample :
    normalizeCard (JVal.arr [JVal.num 1, JVal.num 2]) = .error .attributeError ∧
    normalizeCard (JVal.arr [JVal.num 1, JVal.num 2]) ≠ .ok deep_empty_card := by
  decide

/-- C2 (amended): for every decoded JSON value that is not a JSON object,
normalization raises AttributeError (data.get on a non-mapping) instead of
returning a default Card; the default Card arises only for a missing chara
entry. -/
theorem claim_c2 (v : JVal) (h : v.isObj = false) :
    normalizeCard v = .error .attributeError := by
  cases v with
  | obj kvs => simp [JVal.isObj] at h
  | null => rfl
  | bool b => rfl
  | num n => rfl
  | str s => rfl
  | arr xs => rfl

theorem claim_c2_witness :
    JVal.isObj (JVal.str "oops") = false ∧
    normalizeCard (JVal.str "oops") = .error .attributeError :=
  ⟨rfl, claim_c2 (JVal.str "oops") rfl⟩

/-- C3 (counterexample): card normalization does not convert a keyed
mapping of character_book entries into a sequence; iterating the mapping
yields its keys, whose get call raises AttributeError, so read_character
fails on such a card instead of producing sequence-shaped entries. -/
theorem claim_c3_counterexample :
    normalizeCard (JVal.obj [("spec", JVal.str "chara_card_v2"),
      ("data", JVal.obj [("character_book", JVal.obj
        [("entries", JVal.obj [("0", JVal.obj [("content", JVal.str "x")])])])])]) =
    .error .attributeError := by
  decide

/-- C3 (amended): the keyed-mapping to sequence conversion of entries is
performed by worldbook normalization (process_worldbook), not by card
normalization: for a worldbook whose entries field is a keyed mapping, the
returned worldbook's entries is the ordered sequence of the mapping's
values (each with its redundant legacy entry field stripped), never a
keyed mapping. -/
theorem claim_c3 (kvs m : List (String × JVal)) (es2 : List JVal)
    (he : olookup kvs "entries" = some (.obj m))
    (hs : (stripLoop (m.map Prod.snd)).1 = .ok es2) :
    process_worldbook (.obj kvs) = .ok (some (.obj (oset kvs "entries" (.arr es2)))) ∧
    olookup (oset kvs "entries" (.arr es2)) "entries" = some (.arr es2) := by
  constructor
  · show (process_worldbookS (.obj kvs)).1 = _
    simp only [process_worldbookS, he, worldbookEntriesLoop, hs, Except.map, oset_oset_same]
  · simp [olookup_oset]

theorem claim_c3_witness :
    olookup [("entries", JVal.obj [("0", JVal.obj [("entry", JVal.str "x"), ("content", JVal.str "x")])])]
      "entries" = some (.obj [("0", JVal.obj [("entry", JVal.str "x"), ("content", JVal.str "x")])]) ∧
    process_worldbook (.obj [("entries", JVal.obj
      [("0", JVal.obj [("entry", JVal.str "x"), ("content", JVal.str "x")])])]) =
      .ok (some (.obj [("entries", JVal.arr [JVal.obj [("content", JVal.str "x")]])])) :=
  ⟨by decide, (claim_c3
      [("entries", JVal.obj [("0", JVal.obj [("entry", JVal.str "x"), ("content", JVal.str "x")])])]
      [("0", JVal.obj [("entry", JVal.str "x"), ("content", JVal.str "x")])]
      [JVal.obj [("content", JVal.str "x")]]
      (by decide) (by decide)).1⟩

/-- C8 (counterexample): process_worldbook does mutate its input: on a
worldbook whose entries is a keyed mapping the post-call value of the
caller's object differs from the value passed in (the mapping has been
replaced by a list and the legacy entry field stripped in place). -/
theorem claim_c8_counterexample :
    (process_worldbookS (JVal.obj [("entries", JVal.obj
        [("k", JVal.obj [("entry", JVal.str "c"), ("content", JVal.str "c")])])])).2 =
      JVal.obj [("entries", JVal.arr [JVal.obj [("content", JVal.str "c")]])] ∧
    (process_worldbookS (JVal.obj [("entries", JVal.obj
        [("k", JVal.obj [("entry", JVal.str "c"), ("content", JVal.str "c")])])])).2 ≠
      JVal.obj [("entries", JVal.obj
        [("k", JVal.obj [("entry", JVal.str "c"), ("content", JVal.str "c")])])] := by
  decide

theorem worldbookEntriesLoop_snd (ev : JVal) (kvs1 : List (String × JVal)) (r : JVal)
    (h : (worldbookEntriesLoop ev kvs1).1 = .ok (some r)) :
    (worldbookEntriesLoop ev kvs1).2 = r := by
  cases ev with
  | arr es =>
      simp only [worldbookEntriesLoop] at h ⊢
      cases hs : (stripLoop es).1 with
      | error err => rw [hs] at h; simp [Except.map] at h
      | ok es2 =>
          rw [hs] at h
          simp only [Except.map, Except.ok.injEq, Option.some.injEq] at h
          rw [stripLoop_snd_of_ok _ _ hs, ← h]
  | str s =>
      simp only [worldbookEntriesLoop] at h ⊢
      cases hs : (stripLoop (s.data.map (fun c => JVal.str (String.mk [c])))).1 with
      | error err => rw [hs] at h; simp [Except.map] at h
      | ok es2 =>
          rw [hs] at h
          simp only [Except.map, Except.ok.injEq, Option.some.injEq] at h
          rw [← h]
  | obj m =>
      simp only [worldbookEntriesLoop] at h ⊢
      cases hs : (stripLoop (m.map (fun p => JVal.str p.1))).1 with
      | error err => rw [hs] at h; simp [Except.map] at h
      | ok es2 =>
          rw [hs] at h
          simp only [Except.map, Except.ok.injEq, Option.some.injEq] at h
          rw [← h]
  | null => simp [worldbookEntriesLoop] at h
  | bool b => simp [worldbookEntriesLoop] at h
  | num n => simp [worldbookEntriesLoop] at h

/-- C8 (amended): process_worldbook's documented-as-pure behaviour is in
fact a mutation contract: whenever it is given a mapping that carries an
entries field and returns a worldbook, the post-call value of the caller's
object is that returned worldbook (the result aliases the mutated
argument); the conversions are visible to the caller. -/
theorem claim_c8 (kvs : List (String × JVal)) (r : JVal)
    (he : (olookup kvs "entries").isSome = true)
    (h : process_worldbook (.obj kvs) = .ok (some r)) :
    (process_worldbookS (.obj kvs)).2 = r := by
  rw [Option.isSome_iff_exists] at he
  obtain ⟨ev, hev⟩ := he
  rw [show process_worldbook (.obj kvs) = (process_worldbookS (.obj kvs)).1 from rfl] at h
  cases ev <;>
    (simp only [process_worldbookS, hev] at h ⊢; exact worldbookEntriesLoop_snd _ _ _ h)

theorem claim_c8_witness :
    (olookup [("entries", JVal.arr [JVal.obj [("entry", JVal.str "e"), ("content", JVal.str "e")]])]
        "entries").isSome = true ∧
    (process_worldbookS (JVal.obj [("entries", JVal.arr
        [JVal.obj [("entry", JVal.str "e"), ("content", JVal.str "e")]])])).2 =
      JVal.obj [("entries", JVal.arr [JVal.obj [("content", JVal.str "e")]])] :=
  ⟨by decide, claim_c8
    [("entries", JVal.arr [JVal.obj [("entry", JVal.str "e"), ("content", JVal.str "e")]])]
    (JVal.obj [("entries", JVal.arr [JVal.obj [("content", JVal.str "e")]])])
    (by decide) (by decide)⟩

/-- C9: the card-fallback branch of process_worldbook can return a
worldbook with no entries field (the nested character_book of a full card
that lacks one), and import_worldbook on such a worldbook raises KeyError
at the entries subscript rather than performing an empty merge. -/
theorem claim_c9 :
    process_worldbook (JVal.obj [("spec", JVal.str "chara_card_v2"),
        ("data", JVal.obj [("character_book", JVal.obj [("name", JVal.str "Outer Lore")])])]) =
      .ok (some (JVal.obj [("name", JVal.str "Outer Lore")])) ∧
    olookup [("name", JVal.str "Outer Lore")] "entries" = none ∧
    import_worldbook (JVal.obj [("entries", JVal.arr [])])
        (JVal.obj [("name", JVal.str "Outer Lore")]) = .error .keyError := by
  decide


theorem olookup_adoptIfEmpty_ne (c w : List (String × JVal)) (k k2 : String)
    (h : k ≠ k2) : olookup (adoptIfEmpty c w k) k2 = olookup c k2 := by
  unfold adoptIfEmpty
  split
  · simp [olookup_oset, h]
  · rfl

theorem olookup_adoptIfEmpty_self (c w : List (String × JVal)) (k : String) :
    olookup (adoptIfEmpty c w k) k =
      if (olookup w k).getD (.str "") ≠ .str "" ∧ (olookup c k).getD (.str "") = .str ""
      then some ((olookup w k).getD (.str "")) else olookup c k := by
  unfold adoptIfEmpty
  split
  · simp [olookup_oset]
  · rfl

/-- C6: in import_worldbook, for both description and name, the worldbook's
value is adopted exactly when it is non-empty and the book's current value
is empty (a missing key reading as empty); in every other case the book's
existing value, present or absent, is unchanged. -/
theorem claim_c6 (ckvs wkvs : List (String × JVal)) (r : JVal)
    (h : import_worldbook (.obj ckvs) (.obj wkvs) = .ok r) :
    ∃ rkvs, r = .obj rkvs ∧
      olookup rkvs "description" =
        (if (olookup wkvs "description").getD (.str "") ≠ .str "" ∧
            (olookup ckvs "description").getD (.str "") = .str ""
         then some ((olookup wkvs "description").getD (.str ""))
         else olookup ckvs "description") ∧
      olookup rkvs "name" =
        (if (olookup wkvs "name").getD (.str "") ≠ .str "" ∧
            (olookup ckvs "name").getD (.str "") = .str ""
         then some ((olookup wkvs "name").getD (.str ""))
         else olookup ckvs "name") := by
  simp only [import_worldbook] at h
  split at h
  · cases h
  · split at h
    · cases h
    · split at h
      · cases h
      · cases h
        refine ⟨_, rfl, ?_, ?_⟩
        · rw [olookup_oset, if_neg (by simp), olookup_oset, if_neg (by simp),
            olookup_oset, if_neg (by simp),
            olookup_adoptIfEmpty_ne _ _ _ _ (by simp),
            olookup_adoptIfEmpty_self]
        · rw [olookup_oset, if_neg (by simp), olookup_oset, if_neg (by simp),
            olookup_oset, if_neg (by simp),
            olookup_adoptIfEmpty_self,
            olookup_adoptIfEmpty_ne ckvs wkvs "description" "name" (by simp)]

theorem claim_c6_witness :
    import_worldbook (JVal.obj [("description", JVal.str ""), ("entries", JVal.arr [])])
        (JVal.obj [("description", JVal.str "W"), ("entries", JVal.arr [])]) =
      .ok (JVal.obj [("description", JVal.str "W"), ("entries", JVal.arr []),
        ("extensions", JVal.obj [])]) ∧
    (∃ rkvs, (JVal.obj [("description", JVal.str "W"), ("entries", JVal.arr []),
        ("extensions", JVal.obj [])] : JVal) = .obj rkvs ∧
      olookup rkvs "description" = some (JVal.str "W") ∧
      olookup rkvs "name" = none) :=
  ⟨by decide,
   claim_c6 [("description", JVal.str ""), ("entries", JVal.arr [])]
     [("description", JVal.str "W"), ("entries", JVal.arr [])]
     (JVal.obj [("description", JVal.str "W"), ("entries", JVal.arr []),
       ("extensions", JVal.obj [])])
     (by decide)⟩

/-- C7: in import_worldbook the resulting extensions is the shallow merge
of the book's and the worldbook's extensions with the worldbook winning on
every colliding key, and the resulting entries is the book's entries
(empty when absent) with the worldbook's appended after, both sides in
their original order, with no deduplication. -/
theorem claim_c7 (ckvs wkvs : List (String × JVal)) (be we : List JVal)
    (cx wx : List (String × JVal))
    (hbe : (olookup ckvs "entries").getD (.arr []) = .arr be)
    (hwe : olookup wkvs "entries" = some (.arr we))
    (hcx : (olookup ckvs "extensions").getD (.obj []) = .obj cx)
    (hwx : (olookup wkvs "extensions").getD (.obj []) = .obj wx)
    (hnd : (wx.map Prod.fst).Nodup) :
    ∃ rkvs, import_worldbook (.obj ckvs) (.obj wkvs) = .ok (.obj rkvs) ∧
      olookup rkvs "entries" = some (.arr (be ++ we)) ∧
      olookup rkvs "extensions" = some (.obj (ounion cx wx)) ∧
      ∀ k, olookup (ounion cx wx) k = (olookup wx k).elim (olookup cx k) some := by
  have hc2e : olookup (adoptIfEmpty (adoptIfEmpty ckvs wkvs "description") wkvs "name")
      "entries" = olookup ckvs "entries" := by
    rw [olookup_adoptIfEmpty_ne (adoptIfEmpty ckvs wkvs "description") wkvs "name" "entries"
        (by simp),
      olookup_adoptIfEmpty_ne ckvs wkvs "description" "entries" (by simp)]
  have hc2x : olookup (adoptIfEmpty (adoptIfEmpty ckvs wkvs "description") wkvs "name")
      "extensions" = olookup ckvs "extensions" := by
    rw [olookup_adoptIfEmpty_ne (adoptIfEmpty ckvs wkvs "description") wkvs "name" "extensions"
        (by simp),
      olookup_adoptIfEmpty_ne ckvs wkvs "description" "extensions" (by simp)]
  refine ⟨oset (oset (oset (adoptIfEmpty (adoptIfEmpty ckvs wkvs "description") wkvs "name")
      "entries" (.arr be)) "entries" (.arr (be ++ we))) "extensions" (.obj (ounion cx wx)),
    ?_, ?_, ?_, fun k => olookup_ounion cx wx k hnd⟩
  · simp only [import_worldbook, hwe, hc2e, hbe, pyIAdd]
    rw [show olookup (oset (oset (adoptIfEmpty (adoptIfEmpty ckvs wkvs "description") wkvs
        "name") "entries" (JVal.arr be)) "entries" (JVal.arr (be ++ we))) "extensions" =
        olookup ckvs "extensions" by
      rw [olookup_oset, if_neg (by simp), olookup_oset, if_neg (by simp), hc2x]]
    rw [hcx, hwx]
    simp [pyOr]
  · rw [olookup_oset, if_neg (by simp), olookup_oset, if_pos rfl]
  · rw [olookup_oset, if_pos rfl]

theorem claim_c7_witness :
    (olookup [("entries", JVal.arr [JVal.str "E1"]), ("extensions", JVal.obj [("a", JVal.num 1)])]
        "entries").getD (.arr []) = .arr [JVal.str "E1"] ∧
    (∃ rkvs, import_worldbook
        (JVal.obj [("entries", JVal.arr [JVal.str "E1"]),
          ("extensions", JVal.obj [("a", JVal.num 1)])])
        (JVal.obj [("entries", JVal.arr [JVal.str "E2", JVal.str "E3"]),
          ("extensions", JVal.obj [("a", JVal.num 2), ("b", JVal.num 3)])]) =
        .ok (.obj rkvs) ∧
      olookup rkvs "entries" = some (.arr [JVal.str "E1", JVal.str "E2", JVal.str "E3"]) ∧
      olookup rkvs "extensions" =
        some (.obj (ounion [("a", JVal.num 1)] [("a", JVal.num 2), ("b", JVal.num 3)])) ∧
      ∀ k, olookup (ounion [("a", JVal.num 1)] [("a", JVal.num 2), ("b", JVal.num 3)]) k =
        (olookup [("a", JVal.num 2), ("b", JVal.num 3)] k).elim
          (olookup [("a", JVal.num 1)] k) some) :=
  ⟨by decide,
   claim_c7 [("entries", JVal.arr [JVal.str "E1"]), ("extensions", JVal.obj [("a", JVal.num 1)])]
     [("entries", JVal.arr [JVal.str "E2", JVal.str "E3"]),
       ("extensions", JVal.obj [("a", JVal.num 2), ("b", JVal.num 3)])]
     [JVal.str "E1"] [JVal.str "E2", JVal.str "E3"]
     [("a", JVal.num 1)] [("a", JVal.num 2), ("b", JVal.num 3)]
     (by decide) (by decide) (by decide) (by decide) (by decide)⟩

/-- C10: write_character replaces the PNG's textual metadata wholesale: for
every input image and card the output carries exactly one text entry, keyed
chara, holding the base64 of the serialized card; every pre-existing text
entry is dropped, while the pixel payload passes through unchanged. -/
theorem claim_c10 (img : PngImage) (data : JVal) :
    (write_character img data).text =
      [("chara", String.mk (b64encode (utf8Encode (json_dumps data))))] ∧
    (write_character img data).pixels = img.pixels :=
  ⟨rfl, rfl⟩

/-- C4: read_character distinguishes missing from corrupt metadata: a PNG
with no chara text entry yields a fresh default card without error, while a
present chara value that fails base64 decoding, UTF-8 decoding or JSON
parsing raises the corresponding decode error (the spec's
CorruptCardMetadata class) instead of returning a default card. -/
theorem claim_c4 (img : PngImage) :
    (pngTextGet img.text "chara" = none → read_character img = .ok deep_empty_card) ∧
    (∀ s, pngTextGet img.text "chara" = some s →
      (b64decode s.data = none → read_character img = .error .binasciiError) ∧
      (∀ bs, b64decode s.data = some bs → utf8Decode bs = none →
        read_character img = .error .unicodeDecodeError) ∧
      (∀ bs t, b64decode s.data = some bs → utf8Decode bs = some t → json_loads t = none →
        read_character img = .error .jsonDecodeError)) := by
  refine ⟨fun h => ?_, fun s hs =>
    ⟨fun hb => ?_, fun bs hb hu => ?_, fun bs t hb hu hj => ?_⟩⟩
  · simp [read_character, h]
  · simp [read_character, hs, hb]
  · simp [read_character, hs, hb, hu]
  · simp [read_character, hs, hb, hu, hj]

theorem claim_c4_witness :
    read_character ⟨[("other", "x")], []⟩ = .ok deep_empty_card ∧
    read_character ⟨[("chara", "AB")], []⟩ = .error .binasciiError ∧
    read_character ⟨[("chara", "/w==")], []⟩ = .error .unicodeDecodeError ∧
    read_character ⟨[("chara", "YWI=")], []⟩ = .error .jsonDecodeError :=
  ⟨(claim_c4 ⟨[("other", "x")], []⟩).1 (by decide),
   ((claim_c4 ⟨[("chara", "AB")], []⟩).2 "AB" (by decide)).1 (by decide),
   ((claim_c4 ⟨[("chara", "/w==")], []⟩).2 "/w==" (by decide)).2.1 [255] (by decide) (by decide),
   ((claim_c4 ⟨[("chara", "YWI=")], []⟩).2 "YWI=" (by decide)).2.2 [97, 98] ['a', 'b']
     (by decide) (by decide) (by decide)⟩

theorem b64_tab : ∀ n < 64, b64decChar (b64char n) = some n ∧
    b64char n ≠ '=' ∧ isB64Char (b64char n) = true := by decide

theorem b64encode_filter : ∀ bs : List Nat, (∀ b ∈ bs, b < 256) →
    (b64encode bs).filter (fun c => isB64Char c || c = '=') = b64encode bs
  | [] => fun _ => rfl
  | [x] => fun h => by
      have hx : x < 256 := h x (by simp)
      simp [b64encode, List.filter, (b64_tab (x / 4) (by omega)).2.2,
        (b64_tab (x % 4 * 16) (by omega)).2.2]
  | [x, y] => fun h => by
      have hx : x < 256 := h x (by simp)
      have hy : y < 256 := h y (by simp)
      simp [b64encode, List.filter, (b64_tab (x / 4) (by omega)).2.2,
        (b64_tab (x % 4 * 16 + y / 16) (by omega)).2.2,
        (b64_tab (y % 16 * 4) (by omega)).2.2]
  | x :: y :: z :: rest => fun h => by
      have hx : x < 256 := h x (by simp)
      have hy : y < 256 := h y (by simp)
      have hz : z < 256 := h z (by simp)
      have ih := b64encode_filter rest (fun b hb => h b (by simp [hb]))
      simp only [b64encode, List.filter_cons]
      rw [show (b64encode rest).filter (fun c => isB64Char c || c = '=') =
          b64encode rest from ih]
      simp [(b64_tab (x / 4) (by omega)).2.2,
        (b64_tab (x % 4 * 16 + y / 16) (by omega)).2.2,
        (b64_tab (y % 16 * 4 + z / 64) (by omega)).2.2,
        (b64_tab (z % 64) (by omega)).2.2]

theorem b64decodeQuads_encode : ∀ bs : List Nat, (∀ b ∈ bs, b < 256) →
    b64decodeQuads (b64encode bs) = some bs
  | [] => fun _ => rfl
  | [x] => fun h => by
      have hx : x < 256 := h x (by simp)
      simp [b64encode, b64decodeQuads, (b64_tab (x / 4) (by omega)).1,
        (b64_tab (x % 4 * 16) (by omega)).1]
      omega
  | [x, y] => fun h => by
      have hx : x < 256 := h x (by simp)
      have hy : y < 256 := h y (by simp)
      simp [b64encode, b64decodeQuads, (b64_tab (x / 4) (by omega)).1,
        (b64_tab (x % 4 * 16 + y / 16) (by omega)).1,
        (b64_tab (y % 16 * 4) (by omega)).1,
        (b64_tab (y % 16 * 4) (by omega)).2.1]
      omega
  | x :: y :: z :: rest => fun h => by
      have hx : x < 256 := h x (by simp)
      have hy : y < 256 := h y (by simp)
      have hz : z < 256 := h z (by simp)
      have ih := b64decodeQuads_encode rest (fun b hb => h b (by simp [hb]))
      simp [b64encode, b64decodeQuads, (b64_tab (x / 4) (by omega)).1,
        (b64_tab (x % 4 * 16 + y / 16) (by omega)).1,
        (b64_tab (y % 16 * 4 + z / 64) (by omega)).1,
        (b64_tab (z % 64) (by omega)).1,
        (b64_tab (y % 16 * 4 + z / 64) (by omega)).2.1,
        (b64_tab (z % 64) (by omega)).2.1, ih]
      omega

theorem b64decode_encode (bs : List Nat) (h : ∀ b ∈ bs, b < 256) :
    b64decode (b64encode bs) = some bs := by
  unfold b64decode
  rw [b64encode_filter bs h, b64decodeQuads_encode bs h]

theorem char_toNat_lt (c : Char) : c.toNat < 1114112 := by
  rcases c.valid with h | h
  · have : c.toNat < 55296 := by exact_mod_cast h
    omega
  · exact_mod_cast h.2

theorem utf8EncodeChar_lt (c : Char) : ∀ b ∈ utf8EncodeChar c, b < 256 := by
  have hc := char_toNat_lt c
  intro b hb
  simp only [utf8EncodeChar] at hb
  split_ifs at hb <;> simp at hb <;> omega

theorem utf8Encode_lt (s : List Char) : ∀ b ∈ utf8Encode s, b < 256 := by
  intro b hb
  unfold utf8Encode at hb
  rw [List.mem_flatten] at hb
  obtain ⟨l, hl, hbl⟩ := hb
  rw [List.mem_map] at hl
  obtain ⟨c, _, rfl⟩ := hl
  exact utf8EncodeChar_lt c b hbl

theorem utf8EncodeChar_ne_nil (c : Char) : utf8EncodeChar c ≠ [] := by
  simp only [utf8EncodeChar]
  split_ifs <;> simp

theorem length_le_utf8Encode (s : List Char) : s.length ≤ (utf8Encode s).length := by
  induction s with
  | nil => simp [utf8Encode]
  | cons c t ih =>
      show _ ≤ (List.map utf8EncodeChar (c :: t)).flatten.length
      rw [List.map_cons, List.flatten_cons, List.length_append]
      have hne := utf8EncodeChar_ne_nil c
      have h1 : 1 ≤ (utf8EncodeChar c).length := by
        cases hc : utf8EncodeChar c with
        | nil => exact absurd hc hne
        | cons a l => simp
      have ih2 : t.length ≤ (utf8Encode t).length := ih
      simp only [utf8Encode] at ih2
      simp only [List.length_cons]
      omega

theorem utf8DecodeAux_encode_ascii : ∀ (s : List Char) (fuel : Nat),
    s.length ≤ fuel → (∀ c ∈ s, c.toNat < 128) →
    utf8DecodeAux fuel (utf8Encode s) = some s
  | [], fuel => fun _ _ => by
      cases fuel
      case zero => rfl
      case succ f => rfl
  | c :: t, fuel => fun hf h => by
      have hc : c.toNat < 128 := h c (by simp)
      have henc : utf8Encode (c :: t) = c.toNat :: utf8Encode t := by
        show (List.map utf8EncodeChar (c :: t)).flatten = _
        rw [List.map_cons, List.flatten_cons]
        rw [show utf8EncodeChar c = [c.toNat] by
          simp only [utf8EncodeChar]; rw [if_pos hc]]
        rfl
      cases fuel with
      | zero => simp at hf
      | succ f =>
          rw [henc]
          show (match utf8DecodeOne (c.toNat :: utf8Encode t) with
            | some (d, rest2) => (utf8DecodeAux f rest2).map (fun cs => d :: cs)
            | none => none) = some (c :: t)
          rw [show utf8DecodeOne (c.toNat :: utf8Encode t) =
              some (Char.ofNat c.toNat, utf8Encode t) by
            simp only [utf8DecodeOne.eq_def]
            rw [if_pos hc]]
          show Option.map (fun cs => Char.ofNat c.toNat :: cs)
            (utf8DecodeAux f (utf8Encode t)) = some (c :: t)
          rw [utf8DecodeAux_encode_ascii t f (by simpa using hf)
            (fun d hd => h d (by simp [hd])), Char.ofNat_toNat]
          rfl

theorem utf8Decode_encode_ascii (s : List Char) (h : ∀ c ∈ s, c.toNat < 128) :
    utf8Decode (utf8Encode s) = some s :=
  utf8DecodeAux_encode_ascii s (utf8Encode s).length (length_le_utf8Encode s) h

theorem hexDigit_ascii (n : Nat) : (hexDigit n).toNat < 128 := by
  rcases Nat.lt_or_ge n 16 with h | h
  · interval_cases n <;> decide
  · have h16 : ("0123456789abcdef".data).length ≤ n := by simpa using h
    simp [hexDigit, List.getD, List.getElem?_eq_none h16]

theorem toHex4_ascii (n : Nat) : ∀ d ∈ toHex4 n, d.toNat < 128 := by
  intro d hd
  simp only [toHex4, List.mem_cons, List.not_mem_nil, or_false] at hd
  rcases hd with rfl | rfl | rfl | rfl <;> exact hexDigit_ascii _

theorem escChar_ascii (c : Char) : ∀ d ∈ escChar c, d.toNat < 128 := by
  intro d hd
  simp only [escChar] at hd
  split_ifs at hd with h1 h2 h3 h4 h5 h6 h7 h8 h9
  · simp at hd; rcases hd with rfl | rfl <;> decide
  · simp at hd; rcases hd with rfl | rfl <;> decide
  · simp at hd; rcases hd with rfl | rfl <;> decide
  · simp at hd; rcases hd with rfl | rfl <;> decide
  · simp at hd; rcases hd with rfl | rfl <;> decide
  · simp at hd; rcases hd with rfl | rfl <;> decide
  · simp at hd; rcases hd with rfl | rfl <;> decide
  · simp at hd; subst hd; simp [Char.toNat] at h8 ⊢; omega
  · simp only [List.mem_cons] at hd
    rcases hd with rfl | rfl | hd
    · decide
    · decide
    · exact toHex4_ascii _ d hd
  · simp only [List.mem_append, List.mem_cons] at hd
    rcases hd with (rfl | rfl | hd) | (rfl | rfl | hd)
    · decide
    · decide
    · exact toHex4_ascii _ d hd
    · decide
    · decide
    · exact toHex4_ascii _ d hd

theorem digit_tab : ∀ m < 10, (digitChar m).toNat < 128 := by decide

theorem natDigitsAux_ascii : ∀ (fuel n : Nat) (acc : List Char),
    (∀ d ∈ acc, d.toNat < 128) → ∀ d ∈ natDigitsAux fuel n acc, d.toNat < 128
  | 0, _, acc => fun hacc => hacc
  | fuel + 1, n, acc => fun hacc => by
      rw [natDigitsAux]
      split
      · exact hacc
      · refine natDigitsAux_ascii fuel (n / 10) _ ?_
        intro d hd
        rcases List.mem_cons.mp hd with rfl | hmem
        · exact digit_tab (n % 10) (Nat.mod_lt n (by omega))
        · exact hacc d hmem

theorem natToChars_ascii (n : Nat) : ∀ d ∈ natToChars n, d.toNat < 128 := by
  unfold natToChars
  split
  · intro d hd; simp at hd; subst hd; decide
  · exact natDigitsAux_ascii (n + 1) n [] (by simp)

theorem intToChars_ascii (i : Int) : ∀ d ∈ intToChars i, d.toNat < 128 := by
  unfold intToChars
  split
  · intro d hd
    rcases List.mem_cons.mp hd with rfl | hmem
    · decide
    · exact natToChars_ascii _ d hmem
  · exact natToChars_ascii _

theorem escString_ascii (s : List Char) : ∀ d ∈ (s.map escChar).flatten, d.toNat < 128 := by
  intro d hd
  rw [List.mem_flatten] at hd
  obtain ⟨l, hl, hdl⟩ := hd
  rw [List.mem_map] at hl
  obtain ⟨c, _, rfl⟩ := hl
  exact escChar_ascii c d hdl

mutual

theorem json_dumps_ascii : ∀ v : JVal, ∀ d ∈ json_dumps v, d.toNat < 128
  | .null => by decide
  | .bool true => by decide
  | .bool false => by decide
  | .num i => intToChars_ascii i
  | .str s =>
      List.forall_mem_cons.mpr ⟨by decide,
        List.forall_mem_append.mpr ⟨escString_ascii s.data, by decide⟩⟩
  | .arr xs =>
      List.forall_mem_cons.mpr ⟨by decide,
        List.forall_mem_append.mpr ⟨dumpsList_ascii xs, by decide⟩⟩
  | .obj kvs =>
      List.forall_mem_cons.mpr ⟨by decide,
        List.forall_mem_append.mpr ⟨dumpsObj_ascii kvs, by decide⟩⟩

theorem dumpsList_ascii : ∀ xs : List JVal, ∀ d ∈ dumpsList xs, d.toNat < 128
  | [] => by decide
  | [x] => json_dumps_ascii x
  | x :: y :: rest =>
      List.forall_mem_append.mpr ⟨json_dumps_ascii x,
        List.forall_mem_cons.mpr ⟨by decide,
          List.forall_mem_cons.mpr ⟨by decide, dumpsList_ascii (y :: rest)⟩⟩⟩

theorem dumpsObj_ascii : ∀ kvs : List (String × JVal), ∀ d ∈ dumpsObj kvs, d.toNat < 128
  | [] => by decide
  | [(k, v)] =>
      List.forall_mem_cons.mpr ⟨by decide,
        List.forall_mem_append.mpr ⟨escString_ascii k.data,
          List.forall_mem_cons.mpr ⟨by decide,
            List.forall_mem_cons.mpr ⟨by decide,
              List.forall_mem_cons.mpr ⟨by decide, json_dumps_ascii v⟩⟩⟩⟩⟩
  | (k, v) :: p :: rest =>
      List.forall_mem_append.mpr
        ⟨List.forall_mem_cons.mpr ⟨by decide,
          List.forall_mem_append.mpr ⟨escString_ascii k.data,
            List.forall_mem_cons.mpr ⟨by decide,
              List.forall_mem_cons.mpr ⟨by decide,
                List.forall_mem_cons.mpr ⟨by decide, json_dumps_ascii v⟩⟩⟩⟩⟩,
         List.forall_mem_cons.mpr ⟨by decide,
           List.forall_mem_cons.mpr ⟨by decide, dumpsObj_ascii (p :: rest)⟩⟩⟩

end

/-- C1: the round-trip law: for every card satisfying the schema invariants
(and in fact for every JSON value), reading back a PNG just written with
the card recovers exactly the normalization of the card's serialized form:
the chara entry is found, its base64 and UTF-8 layers invert, and both
sides reduce to normalizing the reparse of json_dumps of the card. -/
theorem claim_c1 (img : PngImage) (c : JVal) (_hwf : cardWF c = true) :
    read_character (write_character img c) = normalizeOfSerialized c := by
  show (match b64decode (b64encode (utf8Encode (json_dumps c))) with
    | none => Except.error PyErr.binasciiError
    | some jsonBytes =>
        match utf8Decode jsonBytes with
        | none => Except.error PyErr.unicodeDecodeError
        | some jsonChars =>
            match json_loads jsonChars with
            | none => Except.error PyErr.jsonDecodeError
            | some v => normalizeCard v) = normalizeOfSerialized c
  rw [b64decode_encode _ (utf8Encode_lt _)]
  show (match utf8Decode (utf8Encode (json_dumps c)) with
    | none => Except.error PyErr.unicodeDecodeError
    | some jsonChars =>
        match json_loads jsonChars with
        | none => Except.error PyErr.jsonDecodeError
        | some v => normalizeCard v) = normalizeOfSerialized c
  rw [utf8Decode_encode_ascii _ (json_dumps_ascii c)]
  show (match json_loads (json_dumps c) with
    | none => Except.error PyErr.jsonDecodeError
    | some v => normalizeCard v) = normalizeOfSerialized c
  unfold normalizeOfSerialized
  cases json_loads (json_dumps c)
  · rfl
  · rfl

set_option maxRecDepth 4000 in
theorem claim_c1_witness :
    cardWF (JVal.obj [("spec", JVal.str "chara_card_v2"),
      ("data", JVal.obj [("name", JVal.str "Ann"), ("tags", JVal.arr [])])]) = true ∧
    read_character (write_character ⟨[("old", "entry")], [3]⟩
        (JVal.obj [("spec", JVal.str "chara_card_v2"),
          ("data", JVal.obj [("name", JVal.str "Ann"), ("tags", JVal.arr [])])])) =
      normalizeOfSerialized (JVal.obj [("spec", JVal.str "chara_card_v2"),
        ("data", JVal.obj [("name", JVal.str "Ann"), ("tags", JVal.arr [])])]) :=
  ⟨by decide,
   claim_c1 ⟨[("old", "entry")], [3]⟩
     (JVal.obj [("spec", JVal.str "chara_card_v2"),
       ("data", JVal.obj [("name", JVal.str "Ann"), ("tags", JVal.arr [])])])
     (by decide)⟩

theorem olookup_normTags_ne (kvs : List (String × JVal)) (k : String) (h : k ≠ "tags") :
    olookup (normTags kvs) k = olookup kvs k := by
  unfold normTags
  split
  · rfl
  · rw [olookup_oset, if_neg (fun he => h he.symm)]

theorem normTags_tags (kvs : List (String × JVal)) :
    ((olookup (normTags kvs) "tags").getD (.arr [])).isArr = true := by
  unfold normTags
  split
  · assumption
  · simp [olookup_oset, JVal.isArr]

theorem normTags_of_ok (kvs : List (String × JVal))
    (h : ((olookup kvs "tags").getD (.arr [])).isArr = true) : normTags kvs = kvs := by
  unfold normTags
  rw [if_pos h]

theorem olookup_normAG_ne (kvs : List (String × JVal)) (k : String)
    (h : k ≠ "alternate_greetings") : olookup (normAG kvs) k = olookup kvs k := by
  unfold normAG
  split
  · rfl
  · rw [olookup_oset, if_neg (fun he => h he.symm)]

theorem normAG_ag (kvs : List (String × JVal)) :
    ((olookup (normAG kvs) "alternate_greetings").getD (.arr [])).isArr = true := by
  unfold normAG
  split
  · assumption
  · simp [olookup_oset, JVal.isArr]

theorem normAG_of_ok (kvs : List (String × JVal))
    (h : ((olookup kvs "alternate_greetings").getD (.arr [])).isArr = true) :
    normAG kvs = kvs := by
  unfold normAG
  rw [if_pos h]

theorem normEntry_idem (e e2 : JVal) (h : normEntry e = .ok e2) : normEntry e2 = .ok e2 := by
  cases e with
  | obj kvs =>
      by_cases hsk : ((olookup kvs "secondary_keys").getD .null).isArr = true
      · simp only [normEntry, if_pos hsk] at h
        cases h
        simp only [normEntry, if_pos hsk]
      · simp only [normEntry, if_neg hsk] at h
        cases h
        simp only [normEntry, olookup_oset, if_pos rfl]
        rw [if_pos (by simp [JVal.isArr])]
  | null => simp [normEntry] at h
  | bool b => simp [normEntry] at h
  | num n => simp [normEntry] at h
  | str s => simp [normEntry] at h
  | arr xs => simp [normEntry] at h

theorem mapM_normEntry_idem : ∀ es es2 : List JVal,
    es.mapM normEntry = .ok es2 → es2.mapM normEntry = .ok es2
  | [], es2 => fun h => by
      simp only [List.mapM_nil, pure, Except.pure] at h
      cases h
      rfl
  | e :: t, es2 => fun h => by
      rw [List.mapM_cons] at h
      cases he : normEntry e with
      | error err => rw [he] at h; simp [bind, Except.bind] at h
      | ok e2 =>
          rw [he] at h
          cases ht : t.mapM normEntry with
          | error err =>
              rw [ht] at h
              simp [bind, Except.bind] at h
          | ok t2 =>
              rw [ht] at h
              simp only [bind, Except.bind, pure, Except.pure] at h
              cases h
              rw [List.mapM_cons, normEntry_idem e e2 he, mapM_normEntry_idem t t2 ht]
              rfl

theorem normEntries_idem (ev ev2 : JVal) (h : normEntries ev = .ok ev2) :
    normEntries ev2 = .ok ev2 := by
  cases ev with
  | arr es =>
      simp only [normEntries] at h
      cases hm : es.mapM normEntry with
      | error err => rw [hm] at h; simp [Except.map] at h
      | ok es2 =>
          rw [hm] at h
          simp only [Except.map] at h
          cases h
          simp only [normEntries, mapM_normEntry_idem es es2 hm, Except.map]
  | obj m =>
      cases m with
      | nil => simp only [normEntries] at h; cases h; rfl
      | cons p t => simp [normEntries] at h
  | str s =>
      by_cases hs : s.data.isEmpty = true
      · simp only [normEntries, if_pos hs] at h
        cases h
        simp only [normEntries, if_pos hs]
      · simp only [normEntries, if_neg hs] at h
        cases h
  | null => simp [normEntries] at h
  | bool b => simp [normEntries] at h
  | num n => simp [normEntries] at h

theorem normBook_lookup_ne (kvs2 kvs3 : List (String × JVal)) (k : String)
    (h : normBook kvs2 = .ok kvs3) (hk : k ≠ "character_book") :
    olookup kvs3 k = olookup kvs2 k := by
  simp only [normBook] at h
  cases hcb : olookup kvs2 "character_book" with
  | none => rw [hcb] at h; cases h; rfl
  | some cb =>
      rw [hcb] at h
      simp only [bind, Except.bind] at h
      cases hpc : pyContains cb "entries" with
      | error err => rw [hpc] at h; cases h
      | ok b =>
          rw [hpc] at h
          cases b with
          | false => simp only [Bool.false_eq_true, if_false] at h; cases h; rfl
          | true =>
              simp only [if_true] at h
              cases hpi : pyIndex cb "entries" with
              | error err => rw [hpi] at h; cases h
              | ok ev =>
                  rw [hpi] at h
                  dsimp only [] at h
                  cases hne : normEntries ev with
                  | error err => rw [hne] at h; cases h
                  | ok ev2 =>
                      rw [hne] at h
                      dsimp only [] at h
                      cases cb with
                      | obj ckvs =>
                          simp only [] at h
                          cases h
                          rw [olookup_oset, if_neg (fun he => hk he.symm)]
                      | null => cases h
                      | bool b2 => cases h
                      | num n => cases h
                      | str s => cases h
                      | arr xs => cases h

theorem normBook_idem (kvs2 kvs3 : List (String × JVal))
    (h : normBook kvs2 = .ok kvs3) : normBook kvs3 = .ok kvs3 := by
  simp only [normBook] at h ⊢
  cases hcb : olookup kvs2 "character_book" with
  | none => rw [hcb] at h; cases h; rw [hcb]
  | some cb =>
      rw [hcb] at h
      simp only [bind, Except.bind] at h
      cases hpc : pyContains cb "entries" with
      | error err => rw [hpc] at h; cases h
      | ok b =>
          rw [hpc] at h
          cases b with
          | false =>
              simp only [Bool.false_eq_true, if_false] at h
              cases h
              rw [hcb]
              dsimp only [bind, Except.bind]
              rw [hpc]
              rfl
          | true =>
              simp only [if_true] at h
              cases hpi : pyIndex cb "entries" with
              | error err => rw [hpi] at h; cases h
              | ok ev =>
                  rw [hpi] at h
                  dsimp only [] at h
                  cases hne : normEntries ev with
                  | error err => rw [hne] at h; cases h
                  | ok ev2 =>
                      rw [hne] at h
                      dsimp only [] at h
                      cases cb with
                      | obj ckvs =>
                          simp only [] at h
                          cases h
                          rw [olookup_oset, if_pos rfl]
                          simp only [pyContains, olookup_oset, if_pos rfl, Option.isSome_some,
                            bind, Except.bind, if_true, pyIndex]
                          rw [normEntries_idem ev ev2 hne]
                          simp only [oset_oset_same]
                      | null => cases h
                      | bool b2 => cases h
                      | num n => cases h
                      | str s => cases h
                      | arr xs => cases h

theorem getD_null_eq (o : Option JVal) (s : String) (h : o.getD .null = .str s) :
    o = some (.str s) := by
  cases o with
  | none => simp at h
  | some v => simpa using h

theorem normalizeCard_idem (x y : JVal) (h : normalizeCard x = .ok y) :
    normalizeCard y = .ok y := by
  cases x with
  | null => simp [normalizeCard] at h
  | bool b => simp [normalizeCard] at h
  | num n => simp [normalizeCard] at h
  | str s => simp [normalizeCard] at h
  | arr xs => simp [normalizeCard] at h
  | obj dkvs =>
    simp only [normalizeCard] at h
    generalize houter : (if (olookup dkvs "spec").getD .null = .str "chara_card_v2" then dkvs
      else oset baseFields "data" (.obj dkvs)) = outer at h
    have hsp : olookup outer "spec" = some (.str "chara_card_v2") := by
      rw [← houter]
      split
      · next hc => exact getD_null_eq _ _ hc
      · rw [olookup_oset, if_neg (by simp)]
        rfl
    cases hdd : olookup outer "data" with
    | none => rw [hdd] at h; cases h
    | some dd =>
        rw [hdd] at h
        cases dd with
        | obj kvs0 =>
            dsimp only [] at h
            cases hnb : normBook (normAG (normTags kvs0)) with
            | error err => rw [hnb] at h; cases h
            | ok kvs2 =>
                rw [hnb] at h
                dsimp only [] at h
                cases h
                have h1 : normTags kvs2 = kvs2 := normTags_of_ok _ (by
                  rw [show olookup kvs2 "tags" = olookup (normAG (normTags kvs0)) "tags" from
                    normBook_lookup_ne _ _ _ hnb (by simp)]
                  rw [olookup_normAG_ne _ _ (by simp)]
                  exact normTags_tags kvs0)
                have h2 : normAG kvs2 = kvs2 := normAG_of_ok _ (by
                  rw [show olookup kvs2 "alternate_greetings" =
                      olookup (normAG (normTags kvs0)) "alternate_greetings" from
                    normBook_lookup_ne _ _ _ hnb (by simp)]
                  exact normAG_ag (normTags kvs0))
                simp only [normalizeCard]
                rw [if_pos (show (olookup (oset outer "data" (.obj kvs2)) "spec").getD .null =
                    .str "chara_card_v2" from by
                  rw [olookup_oset, if_neg (by simp), hsp]
                  rfl)]
                rw [show olookup (oset outer "data" (.obj kvs2)) "data" = some (.obj kvs2) from by
                  rw [olookup_oset, if_pos rfl]]
                dsimp only []
                rw [h1, h2, normBook_idem _ _ hnb]
                dsimp only []
                rw [oset_oset_same]
        | null => cases h
        | bool b => cases h
        | num n => cases h
        | str s => cases h
        | arr xs => cases h

theorem hexVal_hexDigit : ∀ d < 16, hexVal (hexDigit d) = some d := by decide

theorem char_not_surrogate (c : Char) : ¬ (55296 ≤ c.toNat ∧ c.toNat < 57344) := by
  rcases c.valid with h | h
  · have hlt : c.toNat < 55296 := by exact_mod_cast h
    omega
  · have hgt : 57343 < c.toNat := by exact_mod_cast h.1
    omega

theorem parseStrU_toHex4 (n : Nat) (hn : n < 65536) (hs : ¬ (55296 ≤ n ∧ n < 57344))
    (rest : List Char) :
    parseStrU (toHex4 n ++ rest) = some (some (Char.ofNat n), rest) := by
  show parseStrU (hexDigit (n / 4096 % 16) :: hexDigit (n / 256 % 16) ::
    hexDigit (n / 16 % 16) :: hexDigit (n % 16) :: rest) = _
  simp only [parseStrU, hexVal_hexDigit (n / 4096 % 16) (by omega),
    hexVal_hexDigit (n / 256 % 16) (by omega), hexVal_hexDigit (n / 16 % 16) (by omega),
    hexVal_hexDigit (n % 16) (by omega)]
  rw [show n / 4096 % 16 * 4096 + n / 256 % 16 * 256 + n / 16 % 16 * 16 + n % 16 = n from
    by omega]
  rw [if_neg (by omega : ¬ (55296 ≤ n ∧ n < 56320)),
    if_neg (by omega : ¬ (56320 ≤ n ∧ n < 57344))]

theorem parseStrU2_toHex4 (u n : Nat) (hn : 65536 ≤ n) (hlt : n < 1114112)
    (hu : u = 55296 + (n - 65536) / 1024) (rest : List Char) :
    parseStrU2 u ('\\' :: 'u' :: toHex4 (56320 + (n - 65536) % 1024) ++ rest) =
      some (some (Char.ofNat n), rest) := by
  show parseStrU2 u ('\\' :: 'u' :: hexDigit ((56320 + (n - 65536) % 1024) / 4096 % 16) ::
    hexDigit ((56320 + (n - 65536) % 1024) / 256 % 16) ::
    hexDigit ((56320 + (n - 65536) % 1024) / 16 % 16) ::
    hexDigit ((56320 + (n - 65536) % 1024) % 16) :: rest) = _
  simp only [parseStrU2,
    hexVal_hexDigit ((56320 + (n - 65536) % 1024) / 4096 % 16) (by omega),
    hexVal_hexDigit ((56320 + (n - 65536) % 1024) / 256 % 16) (by omega),
    hexVal_hexDigit ((56320 + (n - 65536) % 1024) / 16 % 16) (by omega),
    hexVal_hexDigit ((56320 + (n - 65536) % 1024) % 16) (by omega)]
  rw [if_pos (⟨trivial, trivial⟩ : True ∧ True)]
  rw [show (56320 + (n - 65536) % 1024) / 4096 % 16 * 4096 +
      (56320 + (n - 65536) % 1024) / 256 % 16 * 256 +
      (56320 + (n - 65536) % 1024) / 16 % 16 * 16 +
      (56320 + (n - 65536) % 1024) % 16 = 56320 + (n - 65536) % 1024 from by omega]
  rw [if_pos (by omega : 56320 ≤ 56320 + (n - 65536) % 1024 ∧
      56320 + (n - 65536) % 1024 < 57344)]
  rw [show 65536 + (u - 55296) * 1024 + (56320 + (n - 65536) % 1024 - 56320) = n from
    by omega]

theorem parseStrU_toHex4_high (u : Nat) (h1 : 55296 ≤ u) (h2 : u < 56320)
    (cs6 : List Char) : parseStrU (toHex4 u ++ cs6) = parseStrU2 u cs6 := by
  show parseStrU (hexDigit (u / 4096 % 16) :: hexDigit (u / 256 % 16) ::
    hexDigit (u / 16 % 16) :: hexDigit (u % 16) :: cs6) = _
  simp only [parseStrU, hexVal_hexDigit (u / 4096 % 16) (by omega),
    hexVal_hexDigit (u / 256 % 16) (by omega), hexVal_hexDigit (u / 16 % 16) (by omega),
    hexVal_hexDigit (u % 16) (by omega)]
  rw [show u / 4096 % 16 * 4096 + u / 256 % 16 * 256 + u / 16 % 16 * 16 + u % 16 = u from
    by omega]
  rw [if_pos (by omega : 55296 ≤ u ∧ u < 56320)]

theorem parseStrU_surrogate (n : Nat) (hn : 65536 ≤ n) (hlt : n < 1114112)
    (rest : List Char) :
    parseStrU (toHex4 (55296 + (n - 65536) / 1024) ++
      ('\\' :: 'u' :: toHex4 (56320 + (n - 65536) % 1024) ++ rest)) =
      some (some (Char.ofNat n), rest) :=
  Eq.trans
    (b := parseStrU2 (55296 + (n - 65536) / 1024)
      ('\\' :: 'u' :: toHex4 (56320 + (n - 65536) % 1024) ++ rest))
    (parseStrU_toHex4_high (55296 + (n - 65536) / 1024) (by omega) (by omega) _)
    (parseStrU2_toHex4 _ n hn hlt rfl rest)

theorem parseStrOne_bs_u (cs : List Char) : parseStrOne ('\\' :: 'u' :: cs) = parseStrU cs :=
  rfl

theorem parseStrOne_escChar (c : Char) (rest : List Char) :
    parseStrOne (escChar c ++ rest) = some (some c, rest) := by
  have hns := char_not_surrogate c
  have hlt := char_toNat_lt c
  by_cases h1 : c = '"'
  · subst h1; rfl
  by_cases h2 : c = '\\'
  · subst h2; rfl
  by_cases h3 : c = '\n'
  · subst h3; rfl
  by_cases h4 : c = '\t'
  · subst h4; rfl
  by_cases h5 : c = '\r'
  · subst h5; rfl
  by_cases h6 : c.toNat = 8
  · rw [show c = Char.ofNat 8 from by rw [← Char.ofNat_toNat c, h6]]
    rfl
  by_cases h7 : c.toNat = 12
  · rw [show c = Char.ofNat 12 from by rw [← Char.ofNat_toNat c, h7]]
    rfl
  by_cases h8 : 32 ≤ c.toNat ∧ c.toNat < 127
  · rw [show escChar c = [c] from by
      simp only [escChar]
      rw [if_neg h1, if_neg h2, if_neg h3, if_neg h4, if_neg h5, if_neg h6, if_neg h7,
        if_pos h8]]
    show parseStrOne (c :: rest) = some (some c, rest)
    simp only [parseStrOne]
    rw [if_neg h1, if_neg h2, if_neg (by omega : ¬ c.toNat < 32)]
  by_cases h9 : c.toNat < 65536
  · have e1 : escChar c = '\\' :: 'u' :: toHex4 c.toNat := by
      simp only [escChar]
      rw [if_neg h1, if_neg h2, if_neg h3, if_neg h4, if_neg h5, if_neg h6, if_neg h7,
        if_neg h8, if_pos h9]
    rw [e1, List.cons_append, List.cons_append, parseStrOne_bs_u]
    exact (parseStrU_toHex4 c.toNat h9 hns rest).trans
      (congrArg (fun z => some (some z, rest)) (Char.ofNat_toNat c))
  · have e1 : escChar c =
        ('\\' :: 'u' :: toHex4 (55296 + (c.toNat - 65536) / 1024)) ++
        ('\\' :: 'u' :: toHex4 (56320 + (c.toNat - 65536) % 1024)) := by
      simp only [escChar]
      rw [if_neg h1, if_neg h2, if_neg h3, if_neg h4, if_neg h5, if_neg h6, if_neg h7,
        if_neg h8, if_neg h9]
    rw [e1]
    rw [List.append_assoc, List.cons_append, List.cons_append, parseStrOne_bs_u,
      List.cons_append, List.cons_append]
    exact (parseStrU_surrogate c.toNat (by omega) hlt rest).trans
      (congrArg (fun z => some (some z, rest)) (Char.ofNat_toNat c))

theorem escChar_ne_nil (c : Char) : escChar c ≠ [] := by
  simp only [escChar]
  split_ifs <;> simp

theorem length_le_escFlatten (s : List Char) :
    s.length ≤ ((s.map escChar).flatten).length := by
  induction s with
  | nil => simp
  | cons c t ih =>
      rw [List.map_cons, List.flatten_cons, List.length_append]
      have hne := escChar_ne_nil c
      have h1 : 1 ≤ (escChar c).length := by
        cases hc : escChar c with
        | nil => exact absurd hc hne
        | cons a l => simp
      simp only [List.length_cons]
      omega

theorem parseStringBodyAux_esc : ∀ (s : List Char) (fuel : Nat) (rest : List Char),
    s.length < fuel →
    parseStringBodyAux fuel ((s.map escChar).flatten ++ '"' :: rest) = some (s, rest)
  | [], fuel, rest => fun hf => by
      cases fuel with
      | zero => omega
      | succ f => rfl
  | c :: t, fuel, rest => fun hf => by
      cases fuel with
      | zero => simp at hf
      | succ f =>
          have henc : (((c :: t).map escChar).flatten ++ '"' :: rest) =
              escChar c ++ ((t.map escChar).flatten ++ '"' :: rest) := by
            rw [List.map_cons, List.flatten_cons, List.append_assoc]
          rw [henc]
          show (match parseStrOne (escChar c ++ ((t.map escChar).flatten ++ '"' :: rest)) with
            | some (none, rest2) => some (([] : List Char), rest2)
            | some (some d, rest2) =>
                (parseStringBodyAux f rest2).map (fun p => (d :: p.1, p.2))
            | none => none) = some (c :: t, rest)
          rw [parseStrOne_escChar]
          show (parseStringBodyAux f ((t.map escChar).flatten ++ '"' :: rest)).map
            (fun p => (c :: p.1, p.2)) = some (c :: t, rest)
          rw [parseStringBodyAux_esc t f rest (by simpa using hf)]
          rfl

theorem parseStringBody_esc (s : List Char) (rest : List Char) :
    parseStringBody ((s.map escChar).flatten ++ '"' :: rest) = some (s, rest) := by
  unfold parseStringBody
  refine parseStringBodyAux_esc s _ rest ?_
  have h1 := length_le_escFlatten s
  simp only [List.length_append, List.length_cons]
  omega

theorem natDigitsSpec_pos (n : Nat) (h : n ≠ 0) :
    natDigitsSpec n = natDigitsSpec (n / 10) ++ [digitChar (n % 10)] := by
  cases n with
  | zero => exact absurd rfl h
  | succ m => rw [natDigitsSpec]

theorem natDigitsAux_eq_spec : ∀ (fuel n : Nat), n ≤ fuel → ∀ acc : List Char,
    natDigitsAux fuel n acc = natDigitsSpec n ++ acc
  | 0, n, h, acc => by
      have hn : n = 0 := Nat.le_zero.mp h
      subst hn
      simp [natDigitsAux, natDigitsSpec]
  | fuel + 1, n, h, acc => by
      by_cases hn : n = 0
      · subst hn
        simp [natDigitsAux, natDigitsSpec]
      · rw [natDigitsAux, if_neg hn,
            natDigitsAux_eq_spec fuel (n / 10) (by omega) (digitChar (n % 10) :: acc),
            natDigitsSpec_pos n hn, List.append_assoc, List.singleton_append]

theorem natToChars_eq_spec (n : Nat) (h : n ≠ 0) : natToChars n = natDigitsSpec n := by
  rw [natToChars, if_neg h, natDigitsAux_eq_spec (n + 1) n (by omega) [], List.append_nil]

theorem digitChar_facts : ∀ m < 10, isDigit (digitChar m) = true ∧
    (digitChar m).toNat = 48 + m ∧ (digitChar m = '0' ↔ m = 0) := by decide

theorem isDigit_head_facts (c : Char) (h : isDigit c = true) :
    isWs c = false ∧ ¬ c = '-' ∧ ¬ c = 'n' ∧ ¬ c = 't' ∧ ¬ c = 'f' ∧ ¬ c = '"' ∧
    ¬ c = '[' ∧ ¬ c = '\x7b' ∧ ¬ c = ']' ∧ ¬ c = '\x7d' := by
  refine ⟨?_, ?_, ?_, ?_, ?_, ?_, ?_, ?_, ?_, ?_⟩
  · cases hb : isWs c with
    | false => rfl
    | true =>
        simp only [isWs, Bool.or_eq_true, decide_eq_true_eq] at hb
        rcases hb with ((h1 | h1) | h1) | h1 <;> subst h1 <;> exact absurd h (by decide)
  all_goals intro h1
  all_goals subst h1
  all_goals exact absurd h (by decide)

theorem natDigitsSpec_digits (n : Nat) : ∀ c ∈ natDigitsSpec n, isDigit c = true := by
  induction n using Nat.strong_induction_on with
  | _ n ih =>
      cases n with
      | zero => simp [natDigitsSpec]
      | succ m =>
          rw [natDigitsSpec_pos (m + 1) (by omega)]
          intro c hc
          rcases List.mem_append.mp hc with h1 | h1
          · exact ih ((m + 1) / 10) (Nat.div_lt_self (by omega) (by omega)) c h1
          · rw [List.mem_singleton] at h1
            subst h1
            exact (digitChar_facts ((m + 1) % 10) (Nat.mod_lt _ (by omega))).1

theorem natDigitsSpec_head (n : Nat) (h : n ≠ 0) :
    ∃ c t, natDigitsSpec n = c :: t ∧ ¬ c = '0' ∧ isDigit c = true := by
  induction n using Nat.strong_induction_on with
  | _ n ih =>
      rw [natDigitsSpec_pos n h]
      by_cases h10 : n / 10 = 0
      · rw [h10]
        refine ⟨digitChar (n % 10), [], by simp [natDigitsSpec], ?_, ?_⟩
        · have := (digitChar_facts (n % 10) (Nat.mod_lt _ (by omega))).2.2
          rw [this]
          omega
        · exact (digitChar_facts (n % 10) (Nat.mod_lt _ (by omega))).1
      · obtain ⟨c, t, heq, hc0, hcd⟩ :=
          ih (n / 10) (Nat.div_lt_self (by omega) (by omega)) h10
        exact ⟨c, t ++ [digitChar (n % 10)], by rw [heq, List.cons_append], hc0, hcd⟩

theorem natDigitsSpec_foldl (n : Nat) : ∀ a : Nat,
    (natDigitsSpec n).foldl (fun a c => a * 10 + (c.toNat - 48)) a =
      a * 10 ^ (natDigitsSpec n).length + n := by
  induction n using Nat.strong_induction_on with
  | _ n ih =>
      cases n with
      | zero => simp [natDigitsSpec]
      | succ m =>
          intro a
          rw [natDigitsSpec_pos (m + 1) (by omega), List.foldl_append,
              ih ((m + 1) / 10) (Nat.div_lt_self (by omega) (by omega)) a]
          have hd := (digitChar_facts ((m + 1) % 10) (Nat.mod_lt _ (by omega))).2.1
          simp only [List.foldl_cons, List.foldl_nil, List.length_append,
            List.length_singleton, hd]
          rw [pow_succ]
          set L := (natDigitsSpec ((m + 1) / 10)).length
          have : 48 + (m + 1) % 10 - 48 = (m + 1) % 10 := by omega
          rw [this]
          ring_nf
          omega

theorem parseDigitsAux_append : ∀ (ds : List Char), (∀ c ∈ ds, isDigit c = true) →
    ∀ (a : Nat) (rest : List Char),
    parseDigitsAux a (ds ++ rest) =
      parseDigitsAux (ds.foldl (fun a c => a * 10 + (c.toNat - 48)) a) rest
  | [], _, a, rest => rfl
  | d :: ds, h, a, rest => by
      rw [List.cons_append, parseDigitsAux, if_pos (h d (List.mem_cons_self d ds)),
          parseDigitsAux_append ds (fun c hc => h c (List.mem_cons_of_mem d hc)) _ rest,
          List.foldl_cons]

theorem parseDigitsAux_boundary (a : Nat) (rest : List Char)
    (hb : numBoundary rest = true) : parseDigitsAux a rest = (a, rest) := by
  cases rest with
  | nil => rfl
  | cons d t =>
      simp only [numBoundary, Bool.not_eq_eq_eq_not, Bool.not_true, Bool.or_eq_false_iff,
        decide_eq_false_iff_not] at hb
      rw [parseDigitsAux, if_neg]
      rw [hb.1.1.1]
      exact Bool.false_ne_true

theorem parseNatToken_spec (n : Nat) (hn : n ≠ 0) (c : Char) (t rest : List Char)
    (hspec : natDigitsSpec n = c :: t) (hb : numBoundary rest = true) :
    parseNatToken c (t ++ rest) = some (n, rest) := by
  obtain ⟨c0, t0, h0, hc0, hcd0⟩ := natDigitsSpec_head n hn
  rw [h0, List.cons_eq_cons] at hspec
  obtain ⟨rfl, rfl⟩ := hspec
  have hall : ∀ x ∈ t0, isDigit x = true := fun x hx =>
    natDigitsSpec_digits n x (by rw [h0]; exact List.mem_cons_of_mem _ hx)
  have hr : parseDigitsAux (c0.toNat - 48) (t0 ++ rest) = (n, rest) := by
    rw [parseDigitsAux_append t0 hall _ rest, parseDigitsAux_boundary _ rest hb]
    have hf := natDigitsSpec_foldl n 0
    rw [h0] at hf
    simp only [List.foldl_cons, Nat.zero_mul, Nat.zero_add] at hf
    rw [hf]
  unfold parseNatToken
  rw [if_neg hc0, if_pos hcd0, hr]
  cases rest with
  | nil => rfl
  | cons d t1 =>
      simp only [numBoundary, Bool.not_eq_eq_eq_not, Bool.not_true, Bool.or_eq_false_iff,
        decide_eq_false_iff_not] at hb
      show (if d = '.' ∨ d = 'e' ∨ d = 'E' then none else some (n, d :: t1)) =
        some (n, d :: t1)
      rw [if_neg]
      rintro (h1 | h1 | h1)
      · exact hb.1.1.2 h1
      · exact hb.1.2 h1
      · exact hb.2 h1

theorem intToChars_head (i : Int) :
    ∃ c t, intToChars i = c :: t ∧ (isDigit c = true ∨ c = '-') := by
  unfold intToChars
  split
  · exact ⟨'-', natToChars i.natAbs, rfl, Or.inr rfl⟩
  · by_cases h : i.natAbs = 0
    · rw [h]
      exact ⟨'0', [], rfl, Or.inl (by decide)⟩
    · obtain ⟨c, t, heq, _, hcd⟩ := natDigitsSpec_head i.natAbs h
      exact ⟨c, t, by rw [natToChars_eq_spec _ h, heq], Or.inl hcd⟩

theorem parseIntToken_intToChars (i : Int) (rest : List Char)
    (hb : numBoundary rest = true) :
    parseIntToken (intToChars i ++ rest) = some (i, rest) := by
  by_cases hneg : i < 0
  · have hn : i.natAbs ≠ 0 := by omega
    obtain ⟨c, t, heq, hc0, hcd⟩ := natDigitsSpec_head i.natAbs hn
    rw [show intToChars i = '-' :: natToChars i.natAbs from by rw [intToChars, if_pos hneg],
        natToChars_eq_spec _ hn, heq, List.cons_append, List.cons_append]
    show ((parseNatToken c (t ++ rest)).map (fun p => (-(p.1 : Int), p.2))) = some (i, rest)
    rw [parseNatToken_spec i.natAbs hn c t rest heq hb]
    simp only [Option.map_some']
    have h2 : -((i.natAbs : Nat) : Int) = i := by omega
    rw [h2]
  · rw [show intToChars i = natToChars i.natAbs from by rw [intToChars, if_neg hneg]]
    by_cases hz : i.natAbs = 0
    · have hi : i = 0 := by omega
      subst hi
      show ((parseNatToken '0' rest).map (fun p => ((p.1 : Int), p.2))) = some (0, rest)
      unfold parseNatToken
      rw [if_pos rfl]
      cases rest with
      | nil => rfl
      | cons d t1 =>
          simp only [numBoundary, Bool.not_eq_eq_eq_not, Bool.not_true, Bool.or_eq_false_iff,
            decide_eq_false_iff_not] at hb
          show (Option.map (fun p : Nat × List Char => ((p.1 : Int), p.2))
              (if isDigit d = true ∨ d = '.' ∨ d = 'e' ∨ d = 'E' then none
               else some ((0 : Nat), d :: t1))) = some (0, d :: t1)
          rw [if_neg]
          · rfl
          · rintro (h1 | h1 | h1 | h1)
            · rw [hb.1.1.1] at h1
              exact Bool.false_ne_true h1
            · exact hb.1.1.2 h1
            · exact hb.1.2 h1
            · exact hb.2 h1
    · obtain ⟨c, t, heq, hc0, hcd⟩ := natDigitsSpec_head i.natAbs hz
      rw [natToChars_eq_spec _ hz, heq, List.cons_append]
      have hcm := (isDigit_head_facts c hcd).2.1
      show ((if c = '-' then
              match t ++ rest with
              | [] => none
              | c2 :: t2 => (parseNatToken c2 t2).map (fun p => (-(p.1 : Int), p.2))
            else (parseNatToken c (t ++ rest)).map (fun p => ((p.1 : Int), p.2)))) =
        some (i, rest)
      rw [if_neg hcm, parseNatToken_spec i.natAbs hz c t rest heq hb]
      simp only [Option.map_some']
      have h2 : ((i.natAbs : Nat) : Int) = i := by omega
      rw [h2]

theorem skipWs_not (c : Char) (cs : List Char) (h : isWs c = false) :
    skipWs (c :: cs) = c :: cs := by
  simp [skipWs, h]

theorem parseVal_ws (fuel : Nat) (c : Char) (cs : List Char) (h : isWs c = true) :
    parseVal fuel (c :: cs) = parseVal fuel cs := by
  have hs : skipWs (c :: cs) = skipWs cs := by simp [skipWs, h]
  cases fuel with
  | zero => rfl
  | succ f => rw [parseVal, parseVal, hs]

theorem parseElems_ws (fuel : Nat) (c : Char) (cs : List Char) (h : isWs c = true) :
    parseElems fuel (c :: cs) = parseElems fuel cs := by
  cases fuel with
  | zero => rfl
  | succ f => rw [parseElems, parseElems, parseVal_ws f c cs h]

theorem parseMembers_ws (fuel : Nat) (c : Char) (cs : List Char) (h : isWs c = true) :
    parseMembers fuel (c :: cs) = parseMembers fuel cs := by
  have hs : skipWs (c :: cs) = skipWs cs := by simp [skipWs, h]
  cases fuel with
  | zero => rfl
  | succ f => rw [parseMembers, parseMembers, hs]

theorem parseVal_num_head (fuel : Nat) (c : Char) (cs : List Char)
    (h : isDigit c = true ∨ c = '-') :
    parseVal (fuel + 1) (c :: cs) =
      (parseIntToken (c :: cs)).map (fun p => (JVal.num p.1, p.2)) := by
  have hws : isWs c = false := by
    rcases h with hd | hm
    · exact (isDigit_head_facts c hd).1
    · subst hm; rfl
  rw [parseVal, skipWs_not c cs hws]
  split
  all_goals try rfl
  all_goals rename_i heq
  all_goals injection heq with h1 h2
  all_goals subst h1
  all_goals exact absurd h (by decide)

theorem string_mk_data (s : String) : String.mk s.data = s := rfl

theorem dumps_head (v : JVal) : ∃ c t, json_dumps v = c :: t ∧ isWs c = false ∧
    ¬ c = ']' ∧ ¬ c = '\x7d' := by
  cases v with
  | null =>
      refine ⟨'n', _, rfl, ?_, ?_, ?_⟩ <;> decide
  | bool b =>
      cases b with
      | true => refine ⟨'t', _, rfl, ?_, ?_, ?_⟩ <;> decide
      | false => refine ⟨'f', _, rfl, ?_, ?_, ?_⟩ <;> decide
  | num i =>
      obtain ⟨c, t, heq, h⟩ := intToChars_head i
      refine ⟨c, t, heq, ?_, ?_, ?_⟩
      · rcases h with hd | hm
        · exact (isDigit_head_facts c hd).1
        · subst hm; rfl
      · rcases h with hd | hm
        · exact (isDigit_head_facts c hd).2.2.2.2.2.2.2.2.1
        · subst hm; decide
      · rcases h with hd | hm
        · exact (isDigit_head_facts c hd).2.2.2.2.2.2.2.2.2
        · subst hm; decide
  | str s =>
      refine ⟨'"', _, rfl, ?_, ?_, ?_⟩ <;> decide
  | arr xs =>
      refine ⟨'[', _, rfl, ?_, ?_, ?_⟩ <;> decide
  | obj kvs =>
      refine ⟨'\x7b', _, rfl, ?_, ?_, ?_⟩ <;> decide

theorem oset_not_mem (kvs : List (String × JVal)) (k : String) (v : JVal)
    (h : ¬ k ∈ kvs.map Prod.fst) : oset kvs k v = kvs ++ [(k, v)] := by
  induction kvs with
  | nil => rfl
  | cons p t ih =>
      obtain ⟨k0, v0⟩ := p
      simp only [List.map_cons, List.mem_cons] at h
      push_neg at h
      rw [oset, if_neg (fun hh => h.1 hh.symm), ih h.2, List.cons_append]

theorem foldl_oset_fresh : ∀ (kvs acc : List (String × JVal)),
    (∀ p ∈ kvs, ¬ p.1 ∈ acc.map Prod.fst) → noDupKeys kvs = true →
    kvs.foldl (fun acc q => oset acc q.1 q.2) acc = acc ++ kvs
  | [], acc, _, _ => by simp
  | (k, v) :: t, acc, hfresh, hnd => by
      simp only [noDupKeys, Bool.and_eq_true, Bool.not_eq_true', decide_eq_false_iff_not]
        at hnd
      rw [List.foldl_cons]
      have hk : ¬ k ∈ acc.map Prod.fst := hfresh (k, v) (List.mem_cons_self _ _)
      rw [show oset acc k v = acc ++ [(k, v)] from oset_not_mem acc k v hk]
      rw [foldl_oset_fresh t (acc ++ [(k, v)]) ?_ hnd.2]
      · rw [List.append_assoc, List.singleton_append]
      · intro p hp
        rw [List.map_append, List.mem_append]
        rintro (h1 | h1)
        · exact hfresh p (List.mem_cons_of_mem _ hp) h1
        · simp only [List.map_cons, List.map_nil, List.mem_singleton] at h1
          exact hnd.1 (h1 ▸ List.mem_map_of_mem Prod.fst hp)

theorem foldl_oset_self (kvs : List (String × JVal)) (hnd : noDupKeys kvs = true) :
    kvs.foldl (fun acc q => oset acc q.1 q.2) [] = kvs := by
  have h := foldl_oset_fresh kvs [] (by simp) hnd
  simpa using h

theorem parseFuel_pos (v : JVal) : 1 ≤ parseFuel v := by
  cases v <;> simp only [parseFuel] <;> omega

mutual

theorem parseVal_dumps : ∀ (fuel : Nat) (v : JVal) (rest : List Char),
    parseFuel v ≤ fuel → jWF v = true → numBoundary rest = true →
    parseVal fuel (json_dumps v ++ rest) = some (v, rest)
  | 0, v, _, hf, _, _ => absurd hf (by have := parseFuel_pos v; omega)
  | fuel + 1, v, rest, hf, hwf, hb => by
      cases v with
      | null => rfl
      | bool b => cases b <;> rfl
      | num i =>
          obtain ⟨c, t, heq, hh⟩ := intToChars_head i
          show parseVal (fuel + 1) (intToChars i ++ rest) = some (.num i, rest)
          rw [heq, List.cons_append, parseVal_num_head fuel c (t ++ rest) hh,
              ← List.cons_append, ← heq, parseIntToken_intToChars i rest hb]
          rfl
      | str s =>
          rw [json_dumps]
          simp only [List.cons_append, List.append_assoc, List.singleton_append, List.nil_append]
          rw [parseVal, skipWs_not _ _ (by decide)]
          show (parseStringBody ((s.data.map escChar).flatten ++ '"' :: rest)).map
              (fun p => (JVal.str (String.mk p.1), p.2)) = some (.str s, rest)
          rw [parseStringBody_esc s.data rest]
          simp only [Option.map_some', string_mk_data]
      | arr xs =>
          cases xs with
          | nil => rfl
          | cons x t =>
              have hfl : parseFuelList (x :: t) ≤ fuel := by
                simp only [parseFuel] at hf; omega
              have hwl : jWFList (x :: t) = true := hwf
              rw [json_dumps]
              simp only [List.cons_append, List.append_assoc, List.singleton_append, List.nil_append]
              rw [parseVal, skipWs_not _ _ (by decide)]
              show (match skipWs (dumpsList (x :: t) ++ ']' :: rest) with
                    | ']' :: rest2 => some (JVal.arr [], rest2)
                    | rest1 => (parseElems fuel rest1).map (fun p => (JVal.arr p.1, p.2))) =
                some (JVal.arr (x :: t), rest)
              obtain ⟨c, t0, hx, hws, hrb, _⟩ := dumps_head x
              have hdl : ∃ Y, dumpsList (x :: t) = c :: Y := by
                cases t with
                | nil => exact ⟨t0, by rw [dumpsList, hx]⟩
                | cons y t2 =>
                    exact ⟨t0 ++ ',' :: ' ' :: dumpsList (y :: t2),
                      by rw [dumpsList, hx, List.cons_append]⟩
              obtain ⟨Y, hY⟩ := hdl
              rw [hY, List.cons_append, skipWs_not c _ hws]
              split
              · rename_i heq
                injection heq with h1 h2
                exact absurd h1 hrb
              · rw [← List.cons_append, ← hY, parseElems_dumps fuel x t rest hfl hwl]
                rfl
      | obj kvs =>
          cases kvs with
          | nil => rfl
          | cons p t =>
              obtain ⟨k, v0⟩ := p
              have hfo : parseFuelObj ((k, v0) :: t) ≤ fuel := by
                simp only [parseFuel] at hf; omega
              have hnd : noDupKeys ((k, v0) :: t) = true := by
                simp only [jWF, Bool.and_eq_true] at hwf; exact hwf.1
              have hwo : jWFObj ((k, v0) :: t) = true := by
                simp only [jWF, Bool.and_eq_true] at hwf; exact hwf.2
              rw [json_dumps]
              simp only [List.cons_append, List.append_assoc, List.singleton_append, List.nil_append]
              rw [parseVal, skipWs_not _ _ (by decide)]
              show (match skipWs (dumpsObj ((k, v0) :: t) ++ '\x7d' :: rest) with
                    | '\x7d' :: rest2 => some (JVal.obj [], rest2)
                    | rest1 => (parseMembers fuel rest1).map
                        (fun p => (JVal.obj (p.1.foldl (fun acc q => oset acc q.1 q.2) []),
                          p.2))) =
                some (JVal.obj ((k, v0) :: t), rest)
              have hdo : ∃ Y, dumpsObj ((k, v0) :: t) = '"' :: Y := by
                cases t with
                | nil => exact ⟨_, by rw [dumpsObj, List.cons_append]⟩
                | cons q t2 =>
                    refine ⟨(k.data.map escChar).flatten ++
                      '"' :: ':' :: ' ' :: (json_dumps v0 ++
                        ',' :: ' ' :: dumpsObj (q :: t2)), ?_⟩
                    rw [dumpsObj]
                    simp only [List.cons_append, List.append_assoc]
              obtain ⟨Y, hY⟩ := hdo
              rw [hY, List.cons_append, skipWs_not '"' _ (by decide)]
              show (parseMembers fuel ('"' :: (Y ++ '\x7d' :: rest))).map
                  (fun p => (JVal.obj (p.1.foldl (fun acc q => oset acc q.1 q.2) []), p.2)) =
                some (JVal.obj ((k, v0) :: t), rest)
              rw [← List.cons_append, ← hY, parseMembers_dumps fuel k v0 t rest hfo hwo]
              simp only [Option.map_some']
              rw [foldl_oset_self _ hnd]

theorem parseElems_dumps : ∀ (fuel : Nat) (x : JVal) (t : List JVal) (rest : List Char),
    parseFuelList (x :: t) ≤ fuel → jWFList (x :: t) = true →
    parseElems fuel (dumpsList (x :: t) ++ ']' :: rest) = some (x :: t, rest)
  | 0, x, t, rest, h, _ => absurd h (by simp only [parseFuelList]; omega)
  | fuel + 1, x, t, rest, h, hw => by
      have hwx : jWF x = true := by
        simp only [jWFList, Bool.and_eq_true] at hw; exact hw.1
      cases t with
      | nil =>
          rw [dumpsList, parseElems,
              parseVal_dumps fuel x (']' :: rest)
                (by simp only [parseFuelList] at h; omega) hwx (by rfl)]
          rfl
      | cons y t2 =>
          rw [dumpsList]
          simp only [List.cons_append, List.append_assoc, List.nil_append]
          rw [parseElems,
              parseVal_dumps fuel x (',' :: ' ' :: (dumpsList (y :: t2) ++ ']' :: rest))
                (by simp only [parseFuelList] at h; omega) hwx (by rfl)]
          show (parseElems fuel (' ' :: (dumpsList (y :: t2) ++ ']' :: rest))).map
              (fun p => (x :: p.1, p.2)) = some (x :: y :: t2, rest)
          rw [parseElems_ws fuel ' ' _ (by decide),
              parseElems_dumps fuel y t2 rest
                (by simp only [parseFuelList] at h ⊢; omega)
                (by simp only [jWFList, Bool.and_eq_true] at hw ⊢; exact hw.2)]
          rfl

theorem parseMembers_dumps : ∀ (fuel : Nat) (k : String) (v : JVal)
    (t : List (String × JVal)) (rest : List Char),
    parseFuelObj ((k, v) :: t) ≤ fuel → jWFObj ((k, v) :: t) = true →
    parseMembers fuel (dumpsObj ((k, v) :: t) ++ '\x7d' :: rest) = some ((k, v) :: t, rest)
  | 0, k, v, t, rest, h, _ => absurd h (by simp only [parseFuelObj]; omega)
  | fuel + 1, k, v, t, rest, h, hw => by
      have hwv : jWF v = true := by
        simp only [jWFObj, Bool.and_eq_true] at hw; exact hw.1
      cases t with
      | nil =>
          rw [dumpsObj]
          simp only [List.cons_append, List.append_assoc, List.nil_append]
          rw [parseMembers, skipWs_not '"' _ (by decide)]
          show (match parseStringBody ((k.data.map escChar).flatten ++
                  '"' :: ':' :: ' ' :: (json_dumps v ++ '\x7d' :: rest)) with
                | some (kchars, rest1) =>
                    (match skipWs rest1 with
                     | ':' :: rest2 =>
                        (match parseVal fuel rest2 with
                         | some (v, rest3) =>
                            (match skipWs rest3 with
                             | ',' :: rest4 =>
                                (parseMembers fuel rest4).map
                                  (fun p => ((String.mk kchars, v) :: p.1, p.2))
                             | '\x7d' :: rest4 => some ([(String.mk kchars, v)], rest4)
                             | _ => none)
                         | none => none)
                     | _ => none)
                | none => none) = some ([(k, v)], rest)
          rw [parseStringBody_esc k.data (':' :: ' ' :: (json_dumps v ++ '\x7d' :: rest))]
          show (match skipWs (':' :: ' ' :: (json_dumps v ++ '\x7d' :: rest)) with
                | ':' :: rest2 =>
                   (match parseVal fuel rest2 with
                    | some (v, rest3) =>
                       (match skipWs rest3 with
                        | ',' :: rest4 =>
                           (parseMembers fuel rest4).map
                             (fun p => ((String.mk k.data, v) :: p.1, p.2))
                        | '\x7d' :: rest4 => some ([(String.mk k.data, v)], rest4)
                        | _ => none)
                    | none => none)
                | _ => none) = some ([(k, v)], rest)
          rw [skipWs_not ':' _ (by decide)]
          show (match parseVal fuel (' ' :: (json_dumps v ++ '\x7d' :: rest)) with
                | some (v, rest3) =>
                   (match skipWs rest3 with
                    | ',' :: rest4 =>
                       (parseMembers fuel rest4).map
                         (fun p => ((String.mk k.data, v) :: p.1, p.2))
                    | '\x7d' :: rest4 => some ([(String.mk k.data, v)], rest4)
                    | _ => none)
                | none => none) = some ([(k, v)], rest)
          rw [parseVal_ws fuel ' ' _ (by decide),
              parseVal_dumps fuel v ('\x7d' :: rest)
                (by simp only [parseFuelObj] at h; omega) hwv (by rfl)]
          show some ([(String.mk k.data, v)], rest) = some ([(k, v)], rest)
          rw [string_mk_data]
      | cons q t2 =>
          rw [dumpsObj]
          simp only [List.cons_append, List.append_assoc, List.nil_append]
          rw [parseMembers, skipWs_not '"' _ (by decide)]
          show (match parseStringBody ((k.data.map escChar).flatten ++
                  '"' :: ':' :: ' ' :: (json_dumps v ++
                    ',' :: ' ' :: (dumpsObj (q :: t2) ++ '\x7d' :: rest))) with
                | some (kchars, rest1) =>
                    (match skipWs rest1 with
                     | ':' :: rest2 =>
                        (match parseVal fuel rest2 with
                         | some (v, rest3) =>
                            (match skipWs rest3 with
                             | ',' :: rest4 =>
                                (parseMembers fuel rest4).map
                                  (fun p => ((String.mk kchars, v) :: p.1, p.2))
                             | '\x7d' :: rest4 => some ([(String.mk kchars, v)], rest4)
                             | _ => none)
                         | none => none)
                     | _ => none)
                | none => none) = some ((k, v) :: q :: t2, rest)
          rw [parseStringBody_esc k.data
              (':' :: ' ' :: (json_dumps v ++ ',' :: ' ' :: (dumpsObj (q :: t2) ++ '\x7d' :: rest)))]
          show (match skipWs (':' :: ' ' :: (json_dumps v ++
                  ',' :: ' ' :: (dumpsObj (q :: t2) ++ '\x7d' :: rest))) with
                | ':' :: rest2 =>
                   (match parseVal fuel rest2 with
                    | some (v, rest3) =>
                       (match skipWs rest3 with
                        | ',' :: rest4 =>
                           (parseMembers fuel rest4).map
                             (fun p => ((String.mk k.data, v) :: p.1, p.2))
                        | '\x7d' :: rest4 => some ([(String.mk k.data, v)], rest4)
                        | _ => none)
                    | none => none)
                | _ => none) = some ((k, v) :: q :: t2, rest)
          rw [skipWs_not ':' _ (by decide)]
          show (match parseVal fuel (' ' :: (json_dumps v ++
                  ',' :: ' ' :: (dumpsObj (q :: t2) ++ '\x7d' :: rest))) with
                | some (v, rest3) =>
                   (match skipWs rest3 with
                    | ',' :: rest4 =>
                       (parseMembers fuel rest4).map
                         (fun p => ((String.mk k.data, v) :: p.1, p.2))
                    | '\x7d' :: rest4 => some ([(String.mk k.data, v)], rest4)
                    | _ => none)
                | none => none) = some ((k, v) :: q :: t2, rest)
          rw [parseVal_ws fuel ' ' _ (by decide),
              parseVal_dumps fuel v
                (',' :: ' ' :: (dumpsObj (q :: t2) ++ '\x7d' :: rest))
                (by simp only [parseFuelObj] at h; omega) hwv (by rfl)]
          show (parseMembers fuel (' ' :: (dumpsObj (q :: t2) ++ '\x7d' :: rest))).map
              (fun p => ((String.mk k.data, v) :: p.1, p.2)) = some ((k, v) :: q :: t2, rest)
          rw [parseMembers_ws fuel ' ' _ (by decide)]
          obtain ⟨k2, v2⟩ := q
          rw [parseMembers_dumps fuel k2 v2 t2 rest
                (by simp only [parseFuelObj] at h ⊢; omega)
                (by simp only [jWFObj, Bool.and_eq_true] at hw ⊢; exact hw.2)]
          show some ((String.mk k.data, v) :: (k2, v2) :: t2, rest) =
            some ((k, v) :: (k2, v2) :: t2, rest)
          rw [string_mk_data]

end

theorem intToChars_ne_nil (i : Int) : intToChars i ≠ [] := by
  obtain ⟨c, t, heq, _⟩ := intToChars_head i
  rw [heq]
  exact List.cons_ne_nil c t

mutual

theorem parseFuel_le_dumps : ∀ v : JVal, parseFuel v ≤ (json_dumps v).length
  | .null => by decide
  | .bool b => by cases b <;> decide
  | .num i => by
      show 1 ≤ (intToChars i).length
      have h := intToChars_ne_nil i
      cases he : intToChars i with
      | nil => exact absurd he h
      | cons c t => simp
  | .str s => by
      simp only [parseFuel, json_dumps, List.length_append, List.length_cons]
      omega
  | .arr xs => by
      have h := parseFuelList_le_dumps xs
      simp only [parseFuel, json_dumps, List.length_append, List.length_cons,
        List.length_nil]
      omega
  | .obj kvs => by
      have h := parseFuelObj_le_dumps kvs
      simp only [parseFuel, json_dumps, List.length_append, List.length_cons,
        List.length_nil]
      omega

theorem parseFuelList_le_dumps : ∀ xs : List JVal, parseFuelList xs ≤ (dumpsList xs).length + 1
  | [] => by simp [parseFuelList, dumpsList]
  | [x] => by
      have h := parseFuel_le_dumps x
      simp only [parseFuelList, dumpsList]
      omega
  | x :: y :: t => by
      have h1 := parseFuel_le_dumps x
      have h2 := parseFuelList_le_dumps (y :: t)
      simp only [parseFuelList, dumpsList, List.length_append, List.length_cons] at h2 ⊢
      omega

theorem parseFuelObj_le_dumps : ∀ kvs : List (String × JVal),
    parseFuelObj kvs ≤ (dumpsObj kvs).length + 1
  | [] => by simp [parseFuelObj, dumpsObj]
  | [(k, v)] => by
      have h := parseFuel_le_dumps v
      simp only [parseFuelObj, dumpsObj, List.length_append, List.length_cons]
      omega
  | (k, v) :: q :: t2 => by
      have h1 := parseFuel_le_dumps v
      have h2 := parseFuelObj_le_dumps (q :: t2)
      simp only [parseFuelObj, dumpsObj, List.length_append, List.length_cons] at h2 ⊢
      omega

end

theorem json_loads_dumps (v : JVal) (h : jWF v = true) :
    json_loads (json_dumps v) = some v := by
  unfold json_loads
  have hp := parseVal_dumps ((json_dumps v).length + 1) v []
    (Nat.le_succ_of_le (parseFuel_le_dumps v)) h (by rfl)
  rw [List.append_nil] at hp
  rw [hp]
  rfl

theorem mem_keys_oset (kvs : List (String × JVal)) (k : String) (v : JVal) (k1 : String) :
    k1 ∈ (oset kvs k v).map Prod.fst ↔ k1 = k ∨ k1 ∈ kvs.map Prod.fst := by
  induction kvs with
  | nil => simp [oset]
  | cons p t ih =>
      obtain ⟨k0, v0⟩ := p
      by_cases h0 : k0 = k
      · subst h0
        rw [oset, if_pos rfl]
        simp only [List.map_cons, List.mem_cons]
        tauto
      · simp only [oset, if_neg h0, List.map_cons, List.mem_cons, ih]
        tauto

theorem noDupKeys_oset (kvs : List (String × JVal)) (k : String) (v : JVal)
    (h : noDupKeys kvs = true) : noDupKeys (oset kvs k v) = true := by
  induction kvs with
  | nil => simp [oset, noDupKeys]
  | cons p t ih =>
      obtain ⟨k0, v0⟩ := p
      simp only [noDupKeys, Bool.and_eq_true, Bool.not_eq_true', decide_eq_false_iff_not] at h
      by_cases h0 : k0 = k
      · subst h0
        rw [oset, if_pos rfl]
        simp only [noDupKeys, Bool.and_eq_true, Bool.not_eq_true', decide_eq_false_iff_not]
        exact ⟨h.1, h.2⟩
      · simp only [oset, if_neg h0, noDupKeys, Bool.and_eq_true, Bool.not_eq_true',
          decide_eq_false_iff_not, mem_keys_oset]
        exact ⟨fun hc => hc.elim h0 h.1, ih h.2⟩

theorem jWFObj_oset (kvs : List (String × JVal)) (k : String) (v : JVal)
    (ho : jWFObj kvs = true) (hv : jWF v = true) : jWFObj (oset kvs k v) = true := by
  induction kvs with
  | nil => simp [oset, jWFObj, hv]
  | cons p t ih =>
      obtain ⟨k0, v0⟩ := p
      simp only [jWFObj, Bool.and_eq_true] at ho
      by_cases h0 : k0 = k
      · subst h0
        rw [oset, if_pos rfl]
        simp only [jWFObj, Bool.and_eq_true]
        exact ⟨hv, ho.2⟩
      · simp only [oset, if_neg h0, jWFObj, Bool.and_eq_true]
        exact ⟨ho.1, ih ho.2⟩

theorem jWFObj_olookup (kvs : List (String × JVal)) (k : String) (v : JVal)
    (ho : jWFObj kvs = true) (h : olookup kvs k = some v) : jWF v = true := by
  induction kvs with
  | nil => simp [olookup] at h
  | cons p t ih =>
      obtain ⟨k0, v0⟩ := p
      simp only [jWFObj, Bool.and_eq_true] at ho
      rw [olookup] at h
      split at h
      · injection h with h1
        subst h1
        exact ho.1
      · exact ih ho.2 h

theorem noDupKeys_foldl_oset : ∀ (ps acc : List (String × JVal)), noDupKeys acc = true →
    noDupKeys (ps.foldl (fun a q => oset a q.1 q.2) acc) = true
  | [], _, h => h
  | p :: t, acc, h =>
      noDupKeys_foldl_oset t (oset acc p.1 p.2) (noDupKeys_oset acc p.1 p.2 h)

theorem jWFObj_foldl_oset : ∀ (ps acc : List (String × JVal)), jWFObj acc = true →
    (∀ p ∈ ps, jWF p.2 = true) →
    jWFObj (ps.foldl (fun a q => oset a q.1 q.2) acc) = true
  | [], _, h, _ => h
  | p :: t, acc, h, hall =>
      jWFObj_foldl_oset t (oset acc p.1 p.2)
        (jWFObj_oset acc p.1 p.2 h (hall p (List.mem_cons_self p t)))
        (fun q hq => hall q (List.mem_cons_of_mem p hq))

theorem jWFObj_mem : ∀ (kvs : List (String × JVal)), jWFObj kvs = true →
    ∀ p ∈ kvs, jWF p.2 = true
  | [], _, p, hp => absurd hp (List.not_mem_nil p)
  | (k, v) :: t, hw, p, hp => by
      simp only [jWFObj, Bool.and_eq_true] at hw
      rcases List.mem_cons.mp hp with h1 | h1
      · subst h1
        exact hw.1
      · exact jWFObj_mem t hw.2 p h1

mutual

theorem parseVal_jWF : ∀ (fuel : Nat) (cs : List Char) (v : JVal) (rest : List Char),
    parseVal fuel cs = some (v, rest) → jWF v = true
  | 0, _, _, _, h => by simp [parseVal] at h
  | fuel + 1, cs, v, rest, h => by
      rw [parseVal] at h
      split at h
      · simp only [Option.some.injEq, Prod.mk.injEq] at h
        rw [← h.1]
        rfl
      · simp only [Option.some.injEq, Prod.mk.injEq] at h
        rw [← h.1]
        rfl
      · simp only [Option.some.injEq, Prod.mk.injEq] at h
        rw [← h.1]
        rfl
      · rw [Option.map_eq_some'] at h
        obtain ⟨p, _, heq⟩ := h
        rw [Prod.mk.injEq] at heq
        rw [← heq.1]
        rfl
      · split at h
        · simp only [Option.some.injEq, Prod.mk.injEq] at h
          rw [← h.1]
          rfl
        · rw [Option.map_eq_some'] at h
          obtain ⟨p, hp, heq⟩ := h
          rw [Prod.mk.injEq] at heq
          rw [← heq.1]
          show jWFList p.1 = true
          exact parseElems_jWF fuel _ p.1 p.2 (by rw [hp])
      · split at h
        · simp only [Option.some.injEq, Prod.mk.injEq] at h
          rw [← h.1]
          rfl
        · rw [Option.map_eq_some'] at h
          obtain ⟨p, hp, heq⟩ := h
          rw [Prod.mk.injEq] at heq
          rw [← heq.1]
          have hm := parseMembers_jWF fuel _ p.1 p.2 (by rw [hp])
          show jWF (.obj (p.1.foldl (fun acc q => oset acc q.1 q.2) [])) = true
          simp only [jWF, Bool.and_eq_true]
          exact ⟨noDupKeys_foldl_oset p.1 [] rfl,
            jWFObj_foldl_oset p.1 [] rfl (jWFObj_mem p.1 hm)⟩
      · rw [Option.map_eq_some'] at h
        obtain ⟨p, _, heq⟩ := h
        rw [Prod.mk.injEq] at heq
        rw [← heq.1]
        rfl

theorem parseElems_jWF : ∀ (fuel : Nat) (cs : List Char) (vs : List JVal)
    (rest : List Char), parseElems fuel cs = some (vs, rest) → jWFList vs = true
  | 0, _, _, _, h => by simp [parseElems] at h
  | fuel + 1, cs, vs, rest, h => by
      rw [parseElems] at h
      split at h
      · rename_i v rest1 heq
        split at h
        · rename_i rest2 heq2
          rw [Option.map_eq_some'] at h
          obtain ⟨p, hp, heqp⟩ := h
          rw [Prod.mk.injEq] at heqp
          rw [← heqp.1]
          simp only [jWFList, Bool.and_eq_true]
          exact ⟨parseVal_jWF fuel cs v rest1 heq,
            parseElems_jWF fuel rest2 p.1 p.2 (by rw [hp])⟩
        · rename_i rest2 heq2
          simp only [Option.some.injEq, Prod.mk.injEq] at h
          rw [← h.1]
          simp only [jWFList, Bool.and_eq_true]
          exact ⟨parseVal_jWF fuel cs v rest1 heq, trivial⟩
        · simp at h
      · simp at h

theorem parseMembers_jWF : ∀ (fuel : Nat) (cs : List Char)
    (ms : List (String × JVal)) (rest : List Char),
    parseMembers fuel cs = some (ms, rest) → jWFObj ms = true
  | 0, _, _, _, h => by simp [parseMembers] at h
  | fuel + 1, cs, ms, rest, h => by
      rw [parseMembers] at h
      split at h
      · split at h
        · split at h
          · rename_i kchars rest1 heqs rest2 heqc
            split at h
            · rename_i v rest3 heqv
              split at h
              · rename_i rest4 heq4
                rw [Option.map_eq_some'] at h
                obtain ⟨p, hp, heqp⟩ := h
                rw [Prod.mk.injEq] at heqp
                rw [← heqp.1]
                simp only [jWFObj, Bool.and_eq_true]
                exact ⟨parseVal_jWF fuel rest2 v rest3 heqv,
                  parseMembers_jWF fuel rest4 p.1 p.2 (by rw [hp])⟩
              · rename_i rest4 heq4
                simp only [Option.some.injEq, Prod.mk.injEq] at h
                rw [← h.1]
                simp only [jWFObj, Bool.and_eq_true]
                exact ⟨parseVal_jWF fuel rest2 v rest3 heqv, trivial⟩
              · simp at h
            · simp at h
          · simp at h
        · simp at h
      · simp at h

end

theorem json_loads_jWF (s : List Char) (v : JVal) (h : json_loads s = some v) :
    jWF v = true := by
  unfold json_loads at h
  split at h
  · rename_i v1 rest1 heq
    split at h
    · simp only [Option.some.injEq] at h
      rw [← h]
      exact parseVal_jWF (s.length + 1) s v1 rest1 heq
    · simp at h
  · simp at h

theorem jWF_normTags (kvs : List (String × JVal)) (h1 : noDupKeys kvs = true)
    (h2 : jWFObj kvs = true) :
    noDupKeys (normTags kvs) = true ∧ jWFObj (normTags kvs) = true := by
  unfold normTags
  split
  · exact ⟨h1, h2⟩
  · exact ⟨noDupKeys_oset kvs _ _ h1, jWFObj_oset kvs _ _ h2 rfl⟩

theorem jWF_normAG (kvs : List (String × JVal)) (h1 : noDupKeys kvs = true)
    (h2 : jWFObj kvs = true) :
    noDupKeys (normAG kvs) = true ∧ jWFObj (normAG kvs) = true := by
  unfold normAG
  split
  · exact ⟨h1, h2⟩
  · exact ⟨noDupKeys_oset kvs _ _ h1, jWFObj_oset kvs _ _ h2 rfl⟩

theorem jWF_normEntry (e e2 : JVal) (hw : jWF e = true) (h : normEntry e = .ok e2) :
    jWF e2 = true := by
  cases e with
  | obj kvs =>
      simp only [jWF, Bool.and_eq_true] at hw
      by_cases hsk : ((olookup kvs "secondary_keys").getD .null).isArr = true
      · simp only [normEntry, if_pos hsk] at h
        cases h
        simp only [jWF, Bool.and_eq_true]
        exact hw
      · simp only [normEntry, if_neg hsk] at h
        cases h
        simp only [jWF, Bool.and_eq_true]
        exact ⟨noDupKeys_oset kvs _ _ hw.1, jWFObj_oset kvs _ _ hw.2 rfl⟩
  | null => simp [normEntry] at h
  | bool b => simp [normEntry] at h
  | num n => simp [normEntry] at h
  | str s => simp [normEntry] at h
  | arr xs => simp [normEntry] at h

theorem jWF_mapM_normEntry : ∀ es es2 : List JVal, jWFList es = true →
    es.mapM normEntry = .ok es2 → jWFList es2 = true
  | [], es2, _, h => by
      simp only [List.mapM_nil, pure, Except.pure] at h
      cases h
      rfl
  | e :: t, es2, hw, h => by
      simp only [jWFList, Bool.and_eq_true] at hw
      rw [List.mapM_cons] at h
      cases he : normEntry e with
      | error err => rw [he] at h; simp [bind, Except.bind] at h
      | ok e2 =>
          rw [he] at h
          cases ht : t.mapM normEntry with
          | error err => rw [ht] at h; simp [bind, Except.bind] at h
          | ok t2 =>
              rw [ht] at h
              simp only [bind, Except.bind, pure, Except.pure] at h
              cases h
              simp only [jWFList, Bool.and_eq_true]
              exact ⟨jWF_normEntry e e2 hw.1 he, jWF_mapM_normEntry t t2 hw.2 ht⟩

theorem jWF_normEntries (ev ev2 : JVal) (hw : jWF ev = true)
    (h : normEntries ev = .ok ev2) : jWF ev2 = true := by
  cases ev with
  | arr es =>
      simp only [normEntries] at h
      cases hm : es.mapM normEntry with
      | error err => rw [hm] at h; simp [Except.map] at h
      | ok es2 =>
          rw [hm] at h
          simp only [Except.map] at h
          cases h
          exact jWF_mapM_normEntry es es2 hw hm
  | obj kvs =>
      cases kvs with
      | nil =>
          simp only [normEntries] at h
          cases h
          rfl
      | cons p t => simp [normEntries] at h
  | str s =>
      simp only [normEntries] at h
      split at h
      · cases h
        exact hw
      · simp at h
  | null => simp [normEntries] at h
  | bool b => simp [normEntries] at h
  | num n => simp [normEntries] at h

theorem jWF_normBook (kvs2 kvs3 : List (String × JVal)) (h1 : noDupKeys kvs2 = true)
    (h2 : jWFObj kvs2 = true) (h : normBook kvs2 = .ok kvs3) :
    noDupKeys kvs3 = true ∧ jWFObj kvs3 = true := by
  unfold normBook at h
  split at h
  · cases h
    exact ⟨h1, h2⟩
  · rename_i cb hcb
    cases hpc : pyContains cb "entries" with
    | error err => rw [hpc] at h; simp [bind, Except.bind] at h
    | ok hasE =>
        rw [hpc] at h
        simp only [bind, Except.bind] at h
        cases hasE with
        | false =>
            rw [if_neg Bool.false_ne_true] at h
            cases h
            exact ⟨h1, h2⟩
        | true =>
            rw [if_pos rfl] at h
            cases hpi : pyIndex cb "entries" with
            | error err => rw [hpi] at h; simp [bind, Except.bind] at h
            | ok ev =>
                rw [hpi] at h
                simp only [bind, Except.bind] at h
                cases hne : normEntries ev with
                | error err => rw [hne] at h; simp at h
                | ok ev2 =>
                    rw [hne] at h
                    cases cb with
                    | obj ckvs =>
                        cases h
                        have hwcb := jWFObj_olookup kvs2 "character_book" (.obj ckvs) h2 hcb
                        simp only [jWF, Bool.and_eq_true] at hwcb
                        have hev : olookup ckvs "entries" = some ev := by
                          simp only [pyIndex] at hpi
                          split at hpi
                          · rename_i x hx
                            cases hpi
                            exact hx
                          · simp at hpi
                        have hwev : jWF ev = true := jWFObj_olookup ckvs "entries" ev hwcb.2 hev
                        have hwev2 : jWF ev2 = true := jWF_normEntries ev ev2 hwev hne
                        refine ⟨noDupKeys_oset kvs2 _ _ h1, jWFObj_oset kvs2 _ _ h2 ?_⟩
                        simp only [jWF, Bool.and_eq_true]
                        exact ⟨noDupKeys_oset ckvs _ _ hwcb.1,
                          jWFObj_oset ckvs _ _ hwcb.2 hwev2⟩
                    | null => simp at h
                    | bool b => simp at h
                    | num n => simp at h
                    | str s => simp at h
                    | arr xs => simp at h

theorem normalizeCard_jWF (x y : JVal) (hwf : jWF x = true)
    (h : normalizeCard x = .ok y) : jWF y = true := by
  cases x with
  | obj dkvs =>
      simp only [jWF, Bool.and_eq_true] at hwf
      unfold normalizeCard at h
      dsimp only [] at h
      generalize hout : (if (olookup dkvs "spec").getD .null = .str "chara_card_v2" then dkvs
        else oset baseFields "data" (.obj dkvs)) = outer at h
      have houter : noDupKeys outer = true ∧ jWFObj outer = true := by
        rw [← hout]
        split
        · exact hwf
        · refine ⟨noDupKeys_oset baseFields _ _ (by decide),
            jWFObj_oset baseFields _ _ (by decide) ?_⟩
          simp only [jWF, Bool.and_eq_true]
          exact hwf
      split at h
      · simp at h
      · rename_i kvs0 hdata
        have hkvs0 : jWF (JVal.obj kvs0) = true :=
          jWFObj_olookup outer "data" (.obj kvs0) houter.2 hdata
        simp only [jWF, Bool.and_eq_true] at hkvs0
        have ht := jWF_normTags kvs0 hkvs0.1 hkvs0.2
        have ha := jWF_normAG (normTags kvs0) ht.1 ht.2
        cases hb : normBook (normAG (normTags kvs0)) with
        | error e => rw [hb] at h; simp at h
        | ok kvs2 =>
            rw [hb] at h
            cases h
            have hb2 := jWF_normBook (normAG (normTags kvs0)) kvs2 ha.1 ha.2 hb
            simp only [jWF, Bool.and_eq_true]
            refine ⟨noDupKeys_oset outer _ _ houter.1, jWFObj_oset outer _ _ houter.2 ?_⟩
            simp only [jWF, Bool.and_eq_true]
            exact hb2
      · simp at h
  | null => simp [normalizeCard] at h
  | bool b => simp [normalizeCard] at h
  | num n => simp [normalizeCard] at h
  | str s => simp [normalizeCard] at h
  | arr xs => simp [normalizeCard] at h

/-- C5: normalization is idempotent over the serialization round trip: for
every JSON-parsable input x (a value produced by json.loads from some text,
hence representable as a Python value) on which normalization succeeds,
normalizing the reparse of the serialized normalized value equals
normalizing x itself: normalize(parse(serialize(normalize(x)))) =
normalize(x).  (When normalization of x raises, the inner normalize(x) of
the claimed equation raises that same exception before serialize runs, so
the successful case is the substantive one.) -/
theorem claim_c5 (s : List Char) (x y : JVal) (hs : json_loads s = some x)
    (hn : normalizeCard x = .ok y) :
    normalizeOfSerialized y = normalizeCard x := by
  have hwfx : jWF x = true := json_loads_jWF s x hs
  have hwfy : jWF y = true := normalizeCard_jWF x y hwfx hn
  unfold normalizeOfSerialized
  rw [json_loads_dumps y hwfy, hn]
  exact normalizeCard_idem x y hn

set_option maxRecDepth 10000 in
theorem claim_c5_witness :
    normalizeOfSerialized
        (JVal.obj [("spec", .str "chara_card_v2"), ("data", .obj [])]) =
      normalizeCard (JVal.obj [("spec", .str "chara_card_v2"), ("data", .obj [])]) :=
  claim_c5 "\x7b\"spec\": \"chara_card_v2\", \"data\": \x7b\x7d\x7d".data
    (JVal.obj [("spec", .str "chara_card_v2"), ("data", .obj [])])
    (JVal.obj [("spec", .str "chara_card_v2"), ("data", .obj [])])
    (by decide) (by decide)
